import Mathlib

/-! Raw-socket packet filter / forwarder (`src/router/packet_filter.c`)

A shallow embedding of the two functions of the program, `calculate_checksum`
and the receive/filter/forward loop of `main`, followed by theorems about them.

Conventions of the embedding

* `unsigned char` is `Fin 256`; memory reached through a pointer is a function
  from byte offsets to bytes (`Memory`).  `buffer[BUFFER_SIZE]` of `main` is such a
  memory; only offsets below `BUFFER_SIZE` are ever read or written.
* The host is little-endian (x86-64 / aarch64 Linux, the Docker bridge set-up the
  source mentions): a `unsigned short` load at offset `off` is
  `mem off + 256 * mem (off+1)`, and a store writes the low byte first.
* `long` is 64 bits.  The accumulator of `calculate_checksum` is kept as a natural
  number; `checksum_accumulator_bound` shows it stays far below `2^63` for every
  `int` length, so no wrap-around is lost.
* `recvfrom` and `sendto` are the environment: what `recvfrom` delivers and what
  `sendto` returns are inputs of one loop iteration.
-/

namespace PacketFilter

/-! ## Data model -/

/-- One `unsigned char`. -/
abbrev Byte := Fin 256

/-- Bytes reachable from a pointer, by byte offset. -/
abbrev Memory := Nat → Byte

/-- Constant `#define BUFFER_SIZE 65536`. -/
def BUFFER_SIZE : Nat := 65536

/-- Size `sizeof(struct iphdr)`: the 20-byte fixed IPv4 header. -/
def SIZEOF_IPHDR : Nat := 20

/-- Linux `EINTR`. -/
def EINTR : Int := 4

/-- Conversion of an integer value to `unsigned char` (keeps the low 8 bits). -/
def toByte (x : Nat) : Byte := ⟨x % 256, Nat.mod_lt x (by decide)⟩

/-- Store one byte at an offset. -/
def store8 (mem : Memory) (off : Nat) (b : Byte) : Memory :=
  fun i => if i = off then b else mem i

/-- Load of an `unsigned short` at byte offset `off` (little-endian host). -/
def load16 (mem : Memory) (off : Nat) : Nat :=
  (mem off).val + 256 * (mem (off + 1)).val

/-- Store of an `unsigned short` at byte offset `off` (little-endian host). -/
def store16 (mem : Memory) (off : Nat) (v : Nat) : Memory :=
  store8 (store8 mem off (toByte v)) (off + 1) (toByte (v / 256))

/-! ### `struct iphdr` field accessors (offsets of `<netinet/ip.h>`) -/

/-- Field `iph->ihl`: the low nibble of byte 0. -/
def ihl (buf : Memory) : Nat := (buf 0).val % 16

/-- Field `iph->ttl`: byte 8. -/
def ttl (buf : Memory) : Nat := (buf 8).val

/-- Field `iph->protocol`: byte 9. -/
def protocol (buf : Memory) : Nat := (buf 9).val

/-- Field `iph->check`: the 16-bit word at bytes 10-11, as the host reads it. -/
def check (buf : Memory) : Nat := load16 buf 10

/-- Field `iph->saddr`: the four bytes at 12..15, in memory order. -/
def saddr (buf : Memory) : List Byte := [buf 12, buf 13, buf 14, buf 15]

/-- Field `iph->daddr`: the four bytes at 16..19, in memory order. -/
def daddr (buf : Memory) : List Byte := [buf 16, buf 17, buf 18, buf 19]

/-! ## `calculate_checksum` -/

/-- The `while (nbytes > 1) { sum += *ptr++; nbytes -= 2; }` loop.  The state is
(byte offset of `ptr`, `nbytes`, `sum`); the result is the state at loop exit. -/
def sumLoop (ptr : Memory) : Nat → Nat → Nat → Nat × Nat × Nat
  | off, nbytes + 2, sum => sumLoop ptr (off + 2) nbytes (sum + load16 ptr off)
  | off, nbytes, sum => (off, nbytes, sum)

/-- Function `unsigned short calculate_checksum(unsigned short *ptr, int nbytes)`.

`nbytes` is never negative at the call site (`iph->ihl * 4`).  The last line is
`(unsigned short)(short)~sum`: the low 16 bits of the complement of `sum`, which
for a non-negative `sum` is `65535 - sum % 65536`. -/
def calculate_checksum (ptr : Memory) (nbytes : Nat) : Nat :=
  let st := sumLoop ptr 0 nbytes 0
  let off := st.1
  let rest := st.2.1
  let sum := st.2.2
  -- if (nbytes == 1) { oddbyte = 0; *((u_char*)&oddbyte) = *(u_char*)ptr; sum += oddbyte; }
  let sum := if rest = 1 then sum + (ptr off).val else sum
  -- sum = (sum >> 16) + (sum & 0xffff);
  let sum := sum / 65536 + sum % 65536
  -- sum = sum + (sum >> 16);
  let sum := sum + sum / 65536
  -- answer = (short)~sum; return answer;
  65535 - sum % 65536

/-! ## The loop of `main` -/

/-- Library call `inet_ntop(AF_INET, addr, ...)`: dotted decimal of four address bytes taken
in memory order, each printed as `%u`. -/
def inet_ntop (mem : Memory) (off : Nat) : List Char :=
  Nat.toDigits 10 (mem off).val ++ '.' ::
    (Nat.toDigits 10 (mem (off + 1)).val ++ '.' ::
      (Nat.toDigits 10 (mem (off + 2)).val ++ '.' ::
        Nat.toDigits 10 (mem (off + 3)).val))

/-- What `recvfrom` did in one iteration: it failed (returned a negative value)
with some `errno`, or it stored `data` at the start of the buffer and returned
`data.length` (at most `BUFFER_SIZE`). -/
inductive Recv where
  | failure (errno : Int)
  | packet (data : List Byte)

/-- The buffer after `recvfrom` stored `data` in it: bytes past the received
length keep what they held before. -/
def recvfrom (buffer : Memory) (data : List Byte) : Memory :=
  fun i => if h : i < data.length then data.get ⟨i, h⟩ else buffer i

/-- A call `sendto(sock_fd, buffer, packet_len, 0, &dest_addr, ...)`: the
`packet_len` bytes handed over and `dest_addr.sin_addr` (four bytes). -/
structure Sendto where
  bytes : List Byte
  dest : List Byte
  deriving DecidableEq

/-- Lines the loop prints. -/
inductive LogLine where
  | recvError
  | received (src dst : List Char) (proto : Nat) (len : Nat)
  | actionBlock
  | actionAllow
  | actionDefault
  | ttlExpired
  | sendError
  | shortSend (sent : Int) (len : Nat)
  | forwarded
  deriving DecidableEq

/-- Result of one pass through the body of `while (1)`. -/
structure Iteration where
  /-- Contents of `buffer` at the end of the pass. -/
  buffer : Memory
  /-- Lines printed, in order. -/
  log : List LogLine
  /-- The `sendto` call made, if any. -/
  sendto : Option Sendto
  /-- The value `main` returned, if the pass left the loop; `none` when control
  goes back to `recvfrom`. -/
  exit : Option Nat

/-- Lines 120-125: `iph->ttl--; iph->check = 0; iph->check = calculate_checksum(iph, iph->ihl * 4);`. -/
def rewriteHeader (buffer : Memory) : Memory :=
  let buffer := store8 buffer 8 (toByte (ttl buffer + 255))
  let buffer := store16 buffer 10 0
  store16 buffer 10 (calculate_checksum buffer (ihl buffer * 4))

/-- The first `len` bytes of a memory, as `sendto` reads them. -/
def readBytes (mem : Memory) (len : Nat) : List Byte :=
  (List.range len).map mem

/-- One pass through the body of `while (1)` (lines 65-143). `buffer` is the
buffer as the previous pass left it, `r` what `recvfrom` does and `bytes_sent`
what `sendto` returns if it is called. -/
def iteration (buffer : Memory) (r : Recv) (bytes_sent : Int) : Iteration :=
  match r with
  | .failure errno =>
    if errno = EINTR then ⟨buffer, [], none, none⟩
    else ⟨buffer, [.recvError], none, some 1⟩
  | .packet data =>
    let buffer := recvfrom buffer data
    let packet_len := data.length
    if packet_len < SIZEOF_IPHDR then ⟨buffer, [], none, none⟩
    else
      let src_ip_str := inet_ntop buffer 12
      let dst_ip_str := inet_ntop buffer 16
      let log := [LogLine.received src_ip_str dst_ip_str (protocol buffer) packet_len]
      if src_ip_str = "192.168.2.3".toList ∧ dst_ip_str = "192.168.2.1".toList then
        ⟨buffer, log ++ [.actionBlock], none, none⟩
      else
        let log := log ++
          [if src_ip_str = "192.168.2.4".toList ∧ dst_ip_str = "192.168.2.1".toList
           then LogLine.actionAllow else LogLine.actionDefault]
        if ttl buffer ≤ 1 then ⟨buffer, log ++ [.ttlExpired], none, none⟩
        else
          let buffer := rewriteHeader buffer
          let call : Sendto := ⟨readBytes buffer packet_len, daddr buffer⟩
          let log := log ++
            (if bytes_sent < 0 then [LogLine.sendError]
             else if bytes_sent ≠ (packet_len : Int) then [LogLine.shortSend bytes_sent packet_len]
             else [])
          ⟨buffer, log ++ [.forwarded], some call, none⟩

/-- The `while (1)` loop driven by a finite script of environment answers: the
passes made, in order, ending early when a pass leaves the loop. -/
def mainLoop (buffer : Memory) : List (Recv × Int) → List Iteration
  | [] => []
  | (r, bytes_sent) :: rest =>
    let it := iteration buffer r bytes_sent
    it :: (if it.exit.isSome then [] else mainLoop it.buffer rest)

/-! ## Auxiliary definitions used in statements and proofs -/

/-- The two carry folds of `calculate_checksum` followed by truncation to 16 bits. -/
def fold16 (x : Nat) : Nat :=
  (x / 65536 + x % 65536 + (x / 65536 + x % 65536) / 65536) % 65536

/-- Sum of the first `k` 16-bit words of a memory, as the host loads them. -/
def wordSum (p : Memory) (k : Nat) : Nat :=
  ∑ j in Finset.range k, load16 p (2 * j)

/-- Value of the accumulator of `calculate_checksum` before folding. -/
def rawSum (p : Memory) (nbytes : Nat) : Nat :=
  wordSum p (nbytes / 2) + (if nbytes % 2 = 1 then (p (2 * (nbytes / 2))).val else 0)

/-- Dotted decimal of four bytes. -/
def dotted (a b c d : Byte) : List Char :=
  Nat.toDigits 10 a.val ++ '.' ::
    (Nat.toDigits 10 b.val ++ '.' :: (Nat.toDigits 10 c.val ++ '.' :: Nat.toDigits 10 d.val))

/-- Reading back a decimal numeral. -/
def readDecimal (cs : List Char) : Nat :=
  cs.foldl (fun n c => 10 * n + (c.toNat - 48)) 0

/-- The pair of rule 1, on address bytes: 192.168.2.3 -> 192.168.2.1. -/
def isBlockedPair (buf : Memory) : Prop :=
  saddr buf = [192, 168, 2, 3] ∧ daddr buf = [192, 168, 2, 1]

/-- The pair of rule 2, on address bytes: 192.168.2.4 -> 192.168.2.1. -/
def isAllowedPair (buf : Memory) : Prop :=
  saddr buf = [192, 168, 2, 4] ∧ daddr buf = [192, 168, 2, 1]

instance (buf : Memory) : Decidable (isBlockedPair buf) := by
  unfold isBlockedPair; infer_instance

instance (buf : Memory) : Decidable (isAllowedPair buf) := by
  unfold isAllowedPair; infer_instance

/-- A memory holding the given bytes from offset 0 and zero after them. -/
def memOf (bytes : List Byte) : Memory := fun i => bytes.getD i 0

/-- The line printed by rule 2 or the default rule. -/
def forwardLabel (buf : Memory) : LogLine :=
  if isAllowedPair buf then LogLine.actionAllow else LogLine.actionDefault

/-- The line `Received packet: ...`. -/
def receivedLine (buf : Memory) (len : Nat) : LogLine :=
  LogLine.received (inet_ntop buf 12) (inet_ntop buf 16) (protocol buf) len

/-- Lines printed after `sendto` returned. -/
def sendLines (bytes_sent : Int) (len : Nat) : List LogLine :=
  (if bytes_sent < 0 then [LogLine.sendError]
   else if bytes_sent ≠ (len : Int) then [LogLine.shortSend bytes_sent len]
   else []) ++ [LogLine.forwarded]

/-- Sum of the first `k` words other than the checksum word (word 5, bytes 10-11). -/
def restSum (p : Memory) (k : Nat) : Nat :=
  ∑ i in (Finset.range k).erase 5, load16 p (2 * i)

/-- The all-zero buffer. -/
def zeroMem : Memory := fun _ => 0

/-- A 20-byte header 192.168.2.4 -> 192.168.2.1 with TTL 5 whose checksum field
holds 0xFFFF and whose other words sum to 0xFFFF. -/
def minusZeroHeader : List Byte :=
  [0x45, 0x00, 0x30, 0xA9, 0x00, 0x00, 0x00, 0x00, 0x05, 0x00, 0xFF, 0xFF,
   192, 168, 2, 4, 192, 168, 2, 1]

/-- A 20-byte packet 192.168.2.4 -> 192.168.2.1, TTL 64, protocol 1, IHL 5,
with a correct header checksum (bytes 0xF5 0x93). -/
def allowedPacket : List Byte :=
  [0x45, 0x00, 0x00, 0x14, 0x00, 0x00, 0x00, 0x00, 0x40, 0x01, 0xF5, 0x93,
   192, 168, 2, 4, 192, 168, 2, 1]

/-- A 24-byte packet 10.0.0.5 -> 10.0.0.9 whose header-length field is 4. -/
def shortIhlPacket : List Byte :=
  [0x44, 0x00, 0x00, 0x18, 0x00, 0x00, 0x00, 0x00, 0x40, 0x11, 0x00, 0x00,
   10, 0, 0, 5, 10, 0, 0, 9, 0xDE, 0xAD, 0xBE, 0xEF]

/-- A 20-byte packet 192.168.2.3 -> 192.168.2.1, TTL 64. -/
def blockedPacket : List Byte :=
  [0x45, 0x00, 0x00, 0x14, 0x00, 0x00, 0x00, 0x00, 0x40, 0x01, 0x00, 0x00,
   192, 168, 2, 3, 192, 168, 2, 1]

/-- A 20-byte packet 192.168.2.4 -> 192.168.2.1 with TTL 1. -/
def expiringPacket : List Byte :=
  [0x45, 0x00, 0x00, 0x14, 0x00, 0x00, 0x00, 0x00, 0x01, 0x01, 0x00, 0x00,
   192, 168, 2, 4, 192, 168, 2, 1]

/-- The header as `calculate_checksum` sees it inside `rewriteHeader`: TTL
decremented, checksum field zero. -/
def zeroedHeader (b : Memory) : Memory :=
  store16 (store8 b 8 (toByte (ttl b + 255))) 10 0

/-- A 24-byte packet 10.0.0.5 -> 10.0.0.9 with IHL 6 and option bytes 1,2,3,4. -/
def longPacketA : List Byte :=
  [0x46, 0x00, 0x00, 0x18, 0x00, 0x00, 0x00, 0x00, 0x40, 0x11, 0x00, 0x00,
   10, 0, 0, 5, 10, 0, 0, 9, 0x01, 0x02, 0x03, 0x04]

/-- The same as `longPacketA` with option bytes 0,0,0,0. -/
def longPacketB : List Byte :=
  [0x46, 0x00, 0x00, 0x18, 0x00, 0x00, 0x00, 0x00, 0x40, 0x11, 0x00, 0x00,
   10, 0, 0, 5, 10, 0, 0, 9, 0x00, 0x00, 0x00, 0x00]

/-- A 20-byte packet 10.0.0.5 -> 10.0.0.9 whose IHL field says 6 (24 bytes). -/
def truncatedPacket : List Byte :=
  [0x46, 0x00, 0x00, 0x18, 0x00, 0x00, 0x00, 0x00, 0x40, 0x11, 0x00, 0x00,
   10, 0, 0, 5, 10, 0, 0, 9]

/-- Twelve bytes, too short for an IPv4 header. -/
def runtPacket : List Byte :=
  [0x45, 0x00, 0x00, 0x0C, 0x00, 0x00, 0x00, 0x00, 0x40, 0x01, 0x00, 0x00]

/-- The call `sendto` makes when `shortIhlPacket` is forwarded. -/
def shortIhlSent : Sendto :=
  ⟨[0x44, 0x00, 0x00, 0x18, 0x00, 0x00, 0x00, 0x00, 0x3F, 0x11, 114, 209,
     10, 0, 0, 5, 10, 0, 0, 9, 0xDE, 0xAD, 0xBE, 0xEF], [10, 0, 0, 9]⟩

/-- The header of `allowedPacket` followed by two payload bytes. -/
def payloadPacketA : List Byte := allowedPacket ++ [0xDE, 0xAD]

/-- The header of `allowedPacket` followed by three other payload bytes. -/
def payloadPacketB : List Byte := allowedPacket ++ [0xBE, 0xEF, 0x01]

/-- A receive that ends the loop: `recvfrom` failed with `errno` other than `EINTR`. -/
def fatalReceive : Recv → Prop
  | .failure errno => errno ≠ EINTR
  | .packet _ => False

instance (r : Recv) : Decidable (fatalReceive r) := by
  cases r <;> unfold fatalReceive <;> infer_instance

/-- A script of four passes: an interrupted receive, a forwarded packet whose send
fails, a forwarded packet sent short, and a blocked packet. -/
def quietScript : List (Recv × Int) :=
  [(.failure 4, 0), (.packet allowedPacket, -1), (.packet allowedPacket, 7),
   (.packet blockedPacket, 20)]

/-- A script whose second receive fails with `EBADF` (9); a third entry follows. -/
def fatalScript : List (Recv × Int) :=
  [(.packet allowedPacket, 20), (.failure 9, 0), (.packet allowedPacket, 20)]

/-- Carry folding as the specification words it: add the high 16 bits of the
accumulator into the low 16 bits, repeatedly, until no carry remains. -/
def foldCarries (acc : Nat) : Nat :=
  if acc / 65536 = 0 then acc else foldCarries (acc % 65536 + acc / 65536)
termination_by acc
decreasing_by omega

/-- Reference Internet checksum as the specification words it, for an even
length: sum the `nbytes / 2` 16-bit words, fold the carries until none remains,
and take the 16-bit complement. -/
def referenceChecksum (p : Memory) (nbytes : Nat) : Nat :=
  65535 - foldCarries (wordSum p (nbytes / 2))

/-- Five bytes, for an odd-length checksum. -/
def oddBytes : List Byte := [0x12, 0x34, 0x56, 0x78, 0x9A]

/-- A 20-byte packet 192.168.2.30 -> 192.168.2.1, TTL 64: its source string has
the blocked source as a textual prefix. -/
def prefixSourcePacket : List Byte :=
  [0x45, 0x00, 0x00, 0x14, 0x00, 0x00, 0x00, 0x00, 0x40, 0x01, 0x00, 0x00,
   192, 168, 2, 30, 192, 168, 2, 1]

/-- A 20-byte packet 192.168.2.3 -> 192.168.2.10, TTL 64: its destination string
has the blocked destination as a textual prefix. -/
def prefixDestPacket : List Byte :=
  [0x45, 0x00, 0x00, 0x14, 0x00, 0x00, 0x00, 0x00, 0x40, 0x01, 0x00, 0x00,
   192, 168, 2, 3, 192, 168, 2, 10]

/-- Load of a 16-bit word at byte offset `off` read in network order (big-endian). -/
def load16be (mem : Memory) (off : Nat) : Nat :=
  256 * (mem off).val + (mem (off + 1)).val

/-- Store of a 16-bit value at byte offset `off` in network order (big-endian). -/
def store16be (mem : Memory) (off : Nat) (v : Nat) : Memory :=
  store8 (store8 mem off (toByte (v / 256))) (off + 1) (toByte v)

/-- Sum of the first `k` 16-bit words of a memory read in network order. -/
def wordSumBE (p : Memory) (k : Nat) : Nat :=
  ∑ j in Finset.range k, load16be p (2 * j)

/-- One's-complement checksum of an even number of bytes read as network-order
words: sum, fold the carries until none remains, complement. -/
def checksumBE (p : Memory) (nbytes : Nat) : Nat :=
  65535 - foldCarries (wordSumBE p (nbytes / 2))

/-- The packet `allowedPacket` with its checksum bytes replaced by 0xDE 0xAD. -/
def corruptedPacket : List Byte :=
  [0x45, 0x00, 0x00, 0x14, 0x00, 0x00, 0x00, 0x00, 0x40, 0x01, 0xDE, 0xAD,
   192, 168, 2, 4, 192, 168, 2, 1]

/-- The 16-bit one's-complement (end-around-carry) addition of two 16-bit values. -/
def onesAdd (a b : Nat) : Nat := (a + b) % 65536 + (a + b) / 65536

/-- The 16-bit complement of a 16-bit value. -/
def not16 (v : Nat) : Nat := 65535 - v

/-- The incremental checksum update `~(~HC + ~m + m')`, with `+` one's-complement
addition taken left to right. -/
def incrementalUpdate (hc m m' : Nat) : Nat :=
  not16 (onesAdd (onesAdd (not16 hc) (not16 m)) m')

/-- Sum of the first `k` words other than the TTL/protocol word (word 4) and the
checksum word (word 5). -/
def restSum2 (p : Memory) (k : Nat) : Nat :=
  ∑ i in ((Finset.range k).erase 5).erase 4, load16 p (2 * i)

/-! ## Lemmas: memory -/

@[simp] theorem store8_same (m : Memory) (o : Nat) (b : Byte) : store8 m o b o = b := by
  simp [store8]

theorem store8_other (m : Memory) (o i : Nat) (b : Byte) (h : i ≠ o) :
    store8 m o b i = m i := by
  simp [store8, h]

theorem store16_other (m : Memory) (o v i : Nat) (h0 : i ≠ o) (h1 : i ≠ o + 1) :
    store16 m o v i = m i := by
  simp [store16, store8, h0, h1]

theorem load16_store16 (m : Memory) (o v : Nat) (hv : v < 65536) :
    load16 (store16 m o v) o = v := by
  simp only [load16, store16, store8, toByte]
  simp
  omega

theorem load16_lt (m : Memory) (o : Nat) : load16 m o < 65536 := by
  have h0 := (m o).isLt
  have h1 := (m (o + 1)).isLt
  unfold load16
  omega

theorem load16_congr (p q : Memory) (o : Nat) (h0 : p o = q o) (h1 : p (o + 1) = q (o + 1)) :
    load16 p o = load16 q o := by
  simp [load16, h0, h1]

theorem recvfrom_lt (old : Memory) (data : List Byte) (i : Nat) (h : i < data.length) :
    recvfrom old data i = data.get ⟨i, h⟩ := by
  simp [recvfrom, h]

theorem recvfrom_ge (old : Memory) (data : List Byte) (i : Nat) (h : data.length ≤ i) :
    recvfrom old data i = old i := by
  have : ¬ i < data.length := by omega
  simp [recvfrom, this]

/-! ## Lemmas: `calculate_checksum` -/

theorem sumLoop_eq (p : Memory) : ∀ (n off s : Nat),
    sumLoop p off n s =
      (off + 2 * (n / 2), n % 2, s + ∑ j in Finset.range (n / 2), load16 p (off + 2 * j)) := by
  intro n
  induction n using Nat.strong_induction_on with
  | _ n ih =>
    intro off s
    match n with
    | 0 => simp [sumLoop]
    | 1 => simp [sumLoop]
    | m + 2 =>
      rw [sumLoop, ih m (by omega)]
      have h1 : (m + 2) / 2 = m / 2 + 1 := by omega
      have h2 : (m + 2) % 2 = m % 2 := by omega
      rw [h1, h2, Finset.sum_range_succ']
      refine Prod.ext (by simp; omega) (Prod.ext rfl ?_)
      simp only [Nat.mul_zero, Nat.add_zero]
      have h3 : ∀ j, off + 2 + 2 * j = off + 2 * (j + 1) := by intro j; omega
      simp only [h3]
      omega

theorem calculate_checksum_eq (p : Memory) (n : Nat) :
    calculate_checksum p n = 65535 - fold16 (rawSum p n) := by
  unfold calculate_checksum
  simp only [sumLoop_eq, fold16, rawSum, wordSum, Nat.zero_add]
  split <;> rfl

theorem fold16_spec (x : Nat) (hx : x < 65536 * 65535) :
    fold16 x % 65535 = x % 65535 ∧ fold16 x ≤ 65535 ∧ (fold16 x = 0 ↔ x = 0) := by
  unfold fold16
  generalize hq : x / 65536 = q
  generalize hm : x % 65536 = m
  have hx' : x = 65536 * q + m := by omega
  have hmlt : m < 65536 := by omega
  have hqlt : q < 65535 := by omega
  subst hx'
  by_cases h : q + m < 65536
  · have h1 : (q + m) / 65536 = 0 := by omega
    rw [h1]
    have h2 : (q + m + 0) % 65536 = q + m := by omega
    rw [h2]
    refine ⟨by omega, by omega, by omega⟩
  · have h1 : (q + m) / 65536 = 1 := by omega
    rw [h1]
    have h2 : (q + m + 1) % 65536 = q + m - 65535 := by omega
    rw [h2]
    refine ⟨by omega, by omega, by omega⟩

theorem wordSum_le (p : Memory) (k : Nat) : wordSum p k ≤ 65535 * k := by
  unfold wordSum
  induction k with
  | zero => simp
  | succ k ih =>
    rw [Finset.sum_range_succ]
    have := load16_lt p (2 * k)
    omega

theorem rawSum_le (p : Memory) (n : Nat) : rawSum p n ≤ 65535 * (n / 2) + 255 := by
  unfold rawSum
  have h1 := wordSum_le p (n / 2)
  have h2 := (p (2 * (n / 2))).isLt
  split <;> omega

/-- The accumulator never leaves the range of a 64-bit `long` for an `int` length. -/
theorem checksum_accumulator_bound (p : Memory) (n : Nat) (hn : n < 2 ^ 31) :
    rawSum p n < 2 ^ 63 := by
  have := rawSum_le p n
  omega

theorem calculate_checksum_lt (p : Memory) (n : Nat) : calculate_checksum p n < 65536 := by
  rw [calculate_checksum_eq]
  omega

/-- Pulling one word out of the word sum. -/
theorem wordSum_split (p : Memory) (k j : Nat) (hj : j < k) :
    wordSum p k = load16 p (2 * j) + ∑ i in (Finset.range k).erase j, load16 p (2 * i) := by
  unfold wordSum
  exact (Finset.add_sum_erase _ _ (Finset.mem_range.2 hj)).symm

/-- Memories that differ at most in the word at bytes `2j, 2j+1` have the same
sum of the other words. -/
theorem wordSum_rest_congr (p q : Memory) (k j : Nat)
    (h : ∀ i, i ≠ 2 * j → i ≠ 2 * j + 1 → p i = q i) :
    ∑ i in (Finset.range k).erase j, load16 p (2 * i)
      = ∑ i in (Finset.range k).erase j, load16 q (2 * i) := by
  apply Finset.sum_congr rfl
  intro i hi
  have hne : i ≠ j := (Finset.mem_erase.1 hi).1
  exact load16_congr p q _ (h _ (by omega) (by omega)) (h _ (by omega) (by omega))

theorem rawSum_even (p : Memory) (k : Nat) : rawSum p (2 * k) = wordSum p k := by
  unfold rawSum
  have h1 : 2 * k / 2 = k := by omega
  have h2 : ¬ (2 * k % 2 = 1) := by omega
  simp [h1, h2]

theorem wordSum_congr (p q : Memory) (k : Nat) (h : ∀ i < 2 * k, p i = q i) :
    wordSum p k = wordSum q k := by
  unfold wordSum
  apply Finset.sum_congr rfl
  intro i hi
  have := Finset.mem_range.1 hi
  exact load16_congr p q _ (h _ (by omega)) (h _ (by omega))

theorem rawSum_congr (p q : Memory) (n : Nat) (h : ∀ i < n, p i = q i) :
    rawSum p n = rawSum q n := by
  unfold rawSum
  rw [wordSum_congr p q (n / 2) (fun i hi => h i (by omega))]
  split
  · rw [h (2 * (n / 2)) (by omega)]
  · rfl

theorem calculate_checksum_congr (p q : Memory) (n : Nat) (h : ∀ i < n, p i = q i) :
    calculate_checksum p n = calculate_checksum q n := by
  rw [calculate_checksum_eq, calculate_checksum_eq, rawSum_congr p q n h]

/-! ## Lemmas: dotted decimal -/

set_option maxRecDepth 100000 in
theorem digits_no_dot : ∀ a : Byte, '.' ∉ Nat.toDigits 10 a.val := by decide

set_option maxRecDepth 100000 in
theorem readDecimal_digits : ∀ a : Byte, readDecimal (Nat.toDigits 10 a.val) = a.val := by
  decide

theorem digits_inj (a b : Byte) (h : Nat.toDigits 10 a.val = Nat.toDigits 10 b.val) :
    a = b := by
  apply Fin.ext
  rw [← readDecimal_digits a, ← readDecimal_digits b, h]

theorem append_dot_inj : ∀ (xs ys r r' : List Char), '.' ∉ xs → '.' ∉ ys →
    xs ++ '.' :: r = ys ++ '.' :: r' → xs = ys ∧ r = r' := by
  intro xs
  induction xs with
  | nil =>
    intro ys r r' _ hy h
    cases ys with
    | nil => simpa using h
    | cons y ys =>
      simp only [List.nil_append, List.cons_append, List.cons.injEq] at h
      exact absurd (by rw [h.1]; simp) hy
  | cons x xs ih =>
    intro ys r r' hx hy h
    cases ys with
    | nil =>
      simp only [List.nil_append, List.cons_append, List.cons.injEq] at h
      exact absurd (by rw [← h.1]; simp) hx
    | cons y ys =>
      simp only [List.cons_append, List.cons.injEq] at h
      have hx' : '.' ∉ xs := fun hm => hx (List.mem_cons_of_mem _ hm)
      have hy' : '.' ∉ ys := fun hm => hy (List.mem_cons_of_mem _ hm)
      obtain ⟨e1, e2⟩ := ih ys r r' hx' hy' h.2
      exact ⟨by rw [h.1, e1], e2⟩

theorem dotted_inj (a b c d a' b' c' d' : Byte)
    (h : dotted a b c d = dotted a' b' c' d') : a = a' ∧ b = b' ∧ c = c' ∧ d = d' := by
  unfold dotted at h
  obtain ⟨h1, h⟩ := append_dot_inj _ _ _ _ (digits_no_dot a) (digits_no_dot a') h
  obtain ⟨h2, h⟩ := append_dot_inj _ _ _ _ (digits_no_dot b) (digits_no_dot b') h
  obtain ⟨h3, h4⟩ := append_dot_inj _ _ _ _ (digits_no_dot c) (digits_no_dot c') h
  exact ⟨digits_inj _ _ h1, digits_inj _ _ h2, digits_inj _ _ h3, digits_inj _ _ h4⟩

theorem inet_ntop_eq_dotted (m : Memory) (o : Nat) :
    inet_ntop m o = dotted (m o) (m (o + 1)) (m (o + 2)) (m (o + 3)) := rfl

theorem str_192_168_2_3 : "192.168.2.3".toList = dotted 192 168 2 3 := by decide

theorem str_192_168_2_4 : "192.168.2.4".toList = dotted 192 168 2 4 := by decide

theorem str_192_168_2_1 : "192.168.2.1".toList = dotted 192 168 2 1 := by decide

/-- The string test of rule 1 is the byte test. -/
theorem blocked_str_iff (buf : Memory) :
    (inet_ntop buf 12 = "192.168.2.3".toList ∧ inet_ntop buf 16 = "192.168.2.1".toList)
      ↔ isBlockedPair buf := by
  rw [str_192_168_2_3, str_192_168_2_1, inet_ntop_eq_dotted, inet_ntop_eq_dotted]
  unfold isBlockedPair saddr daddr
  constructor
  · rintro ⟨h1, h2⟩
    obtain ⟨a1, a2, a3, a4⟩ := dotted_inj _ _ _ _ _ _ _ _ h1
    obtain ⟨b1, b2, b3, b4⟩ := dotted_inj _ _ _ _ _ _ _ _ h2
    simp [a1, a2, a3, a4, b1, b2, b3, b4]
  · rintro ⟨h1, h2⟩
    simp only [List.cons.injEq, and_true] at h1 h2
    obtain ⟨a1, a2, a3, a4⟩ := h1
    obtain ⟨b1, b2, b3, b4⟩ := h2
    simp [a1, a2, a3, a4, b1, b2, b3, b4]

/-- The string test of rule 2 is the byte test. -/
theorem allowed_str_iff (buf : Memory) :
    (inet_ntop buf 12 = "192.168.2.4".toList ∧ inet_ntop buf 16 = "192.168.2.1".toList)
      ↔ isAllowedPair buf := by
  rw [str_192_168_2_4, str_192_168_2_1, inet_ntop_eq_dotted, inet_ntop_eq_dotted]
  unfold isAllowedPair saddr daddr
  constructor
  · rintro ⟨h1, h2⟩
    obtain ⟨a1, a2, a3, a4⟩ := dotted_inj _ _ _ _ _ _ _ _ h1
    obtain ⟨b1, b2, b3, b4⟩ := dotted_inj _ _ _ _ _ _ _ _ h2
    simp [a1, a2, a3, a4, b1, b2, b3, b4]
  · rintro ⟨h1, h2⟩
    simp only [List.cons.injEq, and_true] at h1 h2
    obtain ⟨a1, a2, a3, a4⟩ := h1
    obtain ⟨b1, b2, b3, b4⟩ := h2
    simp [a1, a2, a3, a4, b1, b2, b3, b4]

/-! ## Lemmas: one pass of the loop -/

theorem iteration_short (old : Memory) (data : List Byte) (s : Int)
    (h : data.length < 20) :
    iteration old (.packet data) s = ⟨recvfrom old data, [], none, none⟩ := by
  simp [iteration, SIZEOF_IPHDR, h]

theorem iteration_blocked (old : Memory) (data : List Byte) (s : Int)
    (h : 20 ≤ data.length) (hb : isBlockedPair (recvfrom old data)) :
    iteration old (.packet data) s =
      ⟨recvfrom old data, [receivedLine (recvfrom old data) data.length, .actionBlock],
        none, none⟩ := by
  have hs := (blocked_str_iff _).2 hb
  have hl : ¬ data.length < 20 := by omega
  simp [iteration, SIZEOF_IPHDR, hl, hs, receivedLine]

theorem iteration_expired (old : Memory) (data : List Byte) (s : Int)
    (h : 20 ≤ data.length) (hb : ¬ isBlockedPair (recvfrom old data))
    (ht : ttl (recvfrom old data) ≤ 1) :
    iteration old (.packet data) s =
      ⟨recvfrom old data,
        [receivedLine (recvfrom old data) data.length, forwardLabel (recvfrom old data),
          .ttlExpired], none, none⟩ := by
  have hs := (not_congr (blocked_str_iff (recvfrom old data))).2 hb
  have hl : ¬ data.length < 20 := by omega
  simp only [iteration, SIZEOF_IPHDR, hl, hs, if_false, ht, if_true, receivedLine,
    forwardLabel, allowed_str_iff]
  simp

theorem iteration_forward (old : Memory) (data : List Byte) (s : Int)
    (h : 20 ≤ data.length) (hb : ¬ isBlockedPair (recvfrom old data))
    (ht : 2 ≤ ttl (recvfrom old data)) :
    iteration old (.packet data) s =
      ⟨rewriteHeader (recvfrom old data),
        [receivedLine (recvfrom old data) data.length, forwardLabel (recvfrom old data)]
          ++ sendLines s data.length,
        some ⟨readBytes (rewriteHeader (recvfrom old data)) data.length,
          daddr (rewriteHeader (recvfrom old data))⟩, none⟩ := by
  have hs := (not_congr (blocked_str_iff (recvfrom old data))).2 hb
  have hl : ¬ data.length < 20 := by omega
  have ht' : ¬ ttl (recvfrom old data) ≤ 1 := by omega
  simp only [iteration, SIZEOF_IPHDR, hl, hs, if_false, ht', receivedLine,
    forwardLabel, allowed_str_iff, sendLines]
  simp

/-- When a pass transmits. -/
theorem sendto_isSome_iff (old : Memory) (data : List Byte) (s : Int) :
    (iteration old (.packet data) s).sendto.isSome ↔
      (20 ≤ data.length ∧ ¬ isBlockedPair (recvfrom old data) ∧ 2 ≤ ttl (recvfrom old data)) := by
  by_cases h : 20 ≤ data.length
  · by_cases hb : isBlockedPair (recvfrom old data)
    · simp [iteration_blocked old data s h hb, hb]
    · by_cases ht : 2 ≤ ttl (recvfrom old data)
      · simp [iteration_forward old data s h hb ht, h, hb, ht]
      · have ht' : ttl (recvfrom old data) ≤ 1 := by omega
        simp [iteration_expired old data s h hb ht', ht]
  · have h' : data.length < 20 := by omega
    simp [iteration_short old data s h', h]

/-! ## Lemmas: the header rewrite -/

theorem restSum_store16 (p : Memory) (k v : Nat) :
    restSum (store16 p 10 v) k = restSum p k := by
  unfold restSum
  exact wordSum_rest_congr _ _ k 5 (fun i h0 h1 => store16_other p 10 v i h0 h1)

theorem restSum_le (p : Memory) (k : Nat) : restSum p k ≤ 65535 * k := by
  refine le_trans ?_ (wordSum_le p k)
  unfold restSum wordSum
  exact Finset.sum_le_sum_of_subset (Finset.erase_subset _ _)

/-- Sum over a header of `k > 5` words: the checksum word plus the rest. -/
theorem rawSum_header (p : Memory) (k : Nat) (hk : 5 < k) :
    rawSum p (2 * k) = load16 p 10 + restSum p k := by
  rw [rawSum_even, wordSum_split p k 5 hk]
  rfl

theorem restSum_pos (p : Memory) (k : Nat) (hk : 5 < k) (h : 0 < ihl p) :
    0 < restSum p k := by
  have h0 : (0 : Nat) ∈ (Finset.range k).erase 5 := by
    simp only [Finset.mem_erase, Finset.mem_range]
    omega
  have h1 : load16 p (2 * 0) ≤ restSum p k :=
    Finset.single_le_sum (f := fun i => load16 p (2 * i)) (fun _ _ => Nat.zero_le _) h0
  have h2 : 0 < load16 p (2 * 0) := by
    unfold ihl at h
    unfold load16
    simp only [Nat.mul_zero]
    omega
  omega

theorem rewriteHeader_other (b : Memory) (i : Nat) (h8 : i ≠ 8) (h10 : i ≠ 10)
    (h11 : i ≠ 11) : rewriteHeader b i = b i := by
  unfold rewriteHeader
  rw [store16_other _ _ _ _ h10 h11, store16_other _ _ _ _ h10 h11, store8_other _ _ _ _ h8]

theorem rewriteHeader_ttl (b : Memory) : rewriteHeader b 8 = toByte (ttl b + 255) := by
  unfold rewriteHeader
  rw [store16_other _ _ _ _ (by decide) (by decide),
    store16_other _ _ _ _ (by decide) (by decide), store8_same]

theorem ihl_rewriteHeader (b : Memory) : ihl (rewriteHeader b) = ihl b := by
  unfold ihl
  rw [rewriteHeader_other b 0 (by decide) (by decide) (by decide)]

theorem ihl_zeroedHeader (b : Memory) : ihl (zeroedHeader b) = ihl b := by
  unfold ihl zeroedHeader
  rw [store16_other _ _ _ _ (by decide) (by decide), store8_other _ _ _ _ (by decide)]

theorem rewriteHeader_eq (b : Memory) :
    rewriteHeader b =
      store16 (zeroedHeader b) 10 (calculate_checksum (zeroedHeader b) (ihl b * 4)) := by
  rw [← ihl_zeroedHeader b]
  rfl

theorem check_rewriteHeader (b : Memory) :
    check (rewriteHeader b) = calculate_checksum (zeroedHeader b) (ihl b * 4) := by
  rw [rewriteHeader_eq]
  exact load16_store16 _ _ _ (calculate_checksum_lt _ _)

theorem readBytes_length (m : Memory) (len : Nat) : (readBytes m len).length = len := by
  simp [readBytes]

theorem readBytes_getElem? (m : Memory) (len i : Nat) (h : i < len) :
    (readBytes m len)[i]? = some (m i) := by
  simp [readBytes, List.getElem?_range h]

theorem memOf_readBytes (m : Memory) (len i : Nat) (h : i < len) :
    memOf (readBytes m len) i = m i := by
  simp [memOf, List.getD, readBytes_getElem? m len i h]

/-- Storing the complement of the folded sum makes the header sum validate. -/
theorem checksum_store_validates (p : Memory) (k : Nat) (hk : 5 < k) (hk' : k ≤ 32768) :
    calculate_checksum
      (store16 p 10 (calculate_checksum (store16 p 10 0) (2 * k))) (2 * k) = 0 := by
  have hc := calculate_checksum_lt (store16 p 10 0) (2 * k)
  rw [calculate_checksum_eq, rawSum_header _ k hk, load16_store16 _ _ _ hc, restSum_store16]
  rw [calculate_checksum_eq, rawSum_header _ k hk, load16_store16 _ _ _ (by decide),
    restSum_store16]
  have hR := restSum_le p k
  generalize restSum p k = R at *
  have h1 := fold16_spec (0 + R) (by omega)
  have h2 := fold16_spec (65535 - fold16 (0 + R) + R) (by omega)
  generalize fold16 (65535 - fold16 (0 + R) + R) = t at *
  generalize fold16 (0 + R) = r at *
  omega

theorem store16_store16 (p : Memory) (o v w : Nat) :
    store16 (store16 p o v) o w = store16 p o w := by
  funext i
  simp only [store16, store8]
  split <;> simp_all

theorem zeroedHeader_store (b : Memory) : store16 (zeroedHeader b) 10 0 = zeroedHeader b := by
  unfold zeroedHeader
  rw [store16_store16]

theorem rewriteHeader_validates (b : Memory) (h : 3 ≤ ihl b) :
    calculate_checksum (rewriteHeader b) (ihl b * 4) = 0 := by
  have hi : ihl b < 16 := Nat.mod_lt _ (by decide)
  have e : ihl b * 4 = 2 * (2 * ihl b) := by omega
  rw [rewriteHeader_eq, e]
  have := checksum_store_validates (zeroedHeader b) (2 * ihl b) (by omega) (by omega)
  rw [zeroedHeader_store] at this
  exact this

theorem zeroedHeader_congr (b1 b2 : Memory) (n : Nat) (h : ∀ i < n, b1 i = b2 i) :
    ∀ i < n, zeroedHeader b1 i = zeroedHeader b2 i := by
  intro i hi
  unfold zeroedHeader
  by_cases h10 : i = 10
  · subst h10; simp [store16, store8]
  · by_cases h11 : i = 11
    · subst h11; simp [store16, store8]
    · rw [store16_other _ _ _ _ h10 h11, store16_other _ _ _ _ h10 h11]
      by_cases h8 : i = 8
      · subst h8
        rw [store8_same, store8_same]
        unfold ttl
        rw [h 8 hi]
      · rw [store8_other _ _ _ _ h8, store8_other _ _ _ _ h8]
        exact h i hi

/-- The checksum stored by the rewrite depends only on the first `ihl*4` bytes. -/
theorem check_rewriteHeader_congr (b1 b2 : Memory) (hi : ihl b1 = ihl b2)
    (h : ∀ i < ihl b1 * 4, b1 i = b2 i) :
    check (rewriteHeader b1) = check (rewriteHeader b2) := by
  rw [check_rewriteHeader, check_rewriteHeader, ← hi]
  exact calculate_checksum_congr _ _ _ (zeroedHeader_congr b1 b2 _ h)

theorem forwardLabel_cases (buf : Memory) :
    (isAllowedPair buf ∧ forwardLabel buf = LogLine.actionAllow) ∨
    (¬ isAllowedPair buf ∧ forwardLabel buf = LogLine.actionDefault) := by
  unfold forwardLabel
  by_cases h : isAllowedPair buf <;> simp [h]

theorem allowed_not_blocked (buf : Memory) (h : isAllowedPair buf) : ¬ isBlockedPair buf := by
  intro hb
  have h1 := h.1
  rw [hb.1] at h1
  revert h1
  decide

/-- Lines of a pass that went past rule 1. -/
theorem log_past_filter (old : Memory) (data : List Byte) (s : Int)
    (h20 : 20 ≤ data.length) (hb : ¬ isBlockedPair (recvfrom old data)) :
    ∃ tail, (iteration old (.packet data) s).log
        = receivedLine (recvfrom old data) data.length
            :: forwardLabel (recvfrom old data) :: tail ∧
      LogLine.actionAllow ∉ tail ∧ LogLine.actionDefault ∉ tail ∧
      LogLine.actionBlock ∉ tail := by
  by_cases ht : 2 ≤ ttl (recvfrom old data)
  · rw [iteration_forward old data s h20 hb ht]
    refine ⟨sendLines s data.length, rfl, ?_, ?_, ?_⟩ <;>
    · unfold sendLines
      split
      · simp
      · split <;> simp
  · have ht' : ttl (recvfrom old data) ≤ 1 := by omega
    rw [iteration_expired old data s h20 hb ht']
    exact ⟨[LogLine.ttlExpired], rfl, by simp, by simp, by simp⟩

/-- Where a packet holds its whole header (`ihl*4` is at most its length), what a
pass prints, transmits and returns does not depend on the earlier buffer contents. -/
theorem outcome_independent_of_leftover (old1 old2 : Memory) (data : List Byte) (s : Int)
    (hlen : ihl (memOf data) * 4 ≤ data.length) :
    (iteration old1 (.packet data) s).sendto = (iteration old2 (.packet data) s).sendto ∧
    (iteration old1 (.packet data) s).log = (iteration old2 (.packet data) s).log ∧
    (iteration old1 (.packet data) s).exit = (iteration old2 (.packet data) s).exit := by
  by_cases h : 20 ≤ data.length
  · have m : ∀ (old : Memory), ∀ i < data.length, recvfrom old data i = memOf data i := by
      intro old i hi
      simp [recvfrom, memOf, hi, List.getD, List.getElem?_eq_getElem hi]
    have hag : ∀ i < data.length, recvfrom old1 data i = recvfrom old2 data i := by
      intro i hi
      rw [m old1 i hi, m old2 i hi]
    have hblk : isBlockedPair (recvfrom old1 data) ↔ isBlockedPair (recvfrom old2 data) := by
      unfold isBlockedPair saddr daddr
      rw [hag 12 (by omega), hag 13 (by omega), hag 14 (by omega), hag 15 (by omega),
        hag 16 (by omega), hag 17 (by omega), hag 18 (by omega), hag 19 (by omega)]
    have hall : isAllowedPair (recvfrom old1 data) ↔ isAllowedPair (recvfrom old2 data) := by
      unfold isAllowedPair saddr daddr
      rw [hag 12 (by omega), hag 13 (by omega), hag 14 (by omega), hag 15 (by omega),
        hag 16 (by omega), hag 17 (by omega), hag 18 (by omega), hag 19 (by omega)]
    have hrecv : receivedLine (recvfrom old1 data) data.length
        = receivedLine (recvfrom old2 data) data.length := by
      unfold receivedLine inet_ntop protocol
      rw [hag 12 (by omega), hag 13 (by omega), hag 14 (by omega), hag 15 (by omega),
        hag 16 (by omega), hag 17 (by omega), hag 18 (by omega), hag 19 (by omega),
        hag 9 (by omega)]
    have hlab : forwardLabel (recvfrom old1 data) = forwardLabel (recvfrom old2 data) := by
      unfold forwardLabel
      simp only [hall]
    have httl : ttl (recvfrom old1 data) = ttl (recvfrom old2 data) := by
      unfold ttl; rw [hag 8 (by omega)]
    by_cases hb : isBlockedPair (recvfrom old1 data)
    · rw [iteration_blocked old1 data s h hb, iteration_blocked old2 data s h (hblk.1 hb), hrecv]
      exact ⟨rfl, rfl, rfl⟩
    · have hb2 : ¬ isBlockedPair (recvfrom old2 data) := fun x => hb (hblk.2 x)
      by_cases ht : 2 ≤ ttl (recvfrom old1 data)
      · rw [iteration_forward old1 data s h hb ht,
          iteration_forward old2 data s h hb2 (httl ▸ ht), hrecv, hlab]
        refine ⟨?_, rfl, rfl⟩
        have hihl : ihl (recvfrom old1 data) = ihl (recvfrom old2 data) := by
          unfold ihl; rw [hag 0 (by omega)]
        have hihl1 : ihl (recvfrom old1 data) = ihl (memOf data) := by
          unfold ihl; rw [m old1 0 (by omega)]
        have hchk := check_rewriteHeader_congr (recvfrom old1 data) (recvfrom old2 data) hihl
          (fun i hi => hag i (by rw [hihl1] at hi; omega))
        have hrw : ∀ i < data.length,
            rewriteHeader (recvfrom old1 data) i = rewriteHeader (recvfrom old2 data) i := by
          intro i hi
          rw [rewriteHeader_eq, rewriteHeader_eq]
          rw [check_rewriteHeader, check_rewriteHeader] at hchk
          rw [hchk]
          have hz := zeroedHeader_congr _ _ _ hag i hi
          simp only [store16, store8]
          split
          · rfl
          · split
            · rfl
            · exact hz
        have hbytes : readBytes (rewriteHeader (recvfrom old1 data)) data.length
            = readBytes (rewriteHeader (recvfrom old2 data)) data.length := by
          unfold readBytes
          apply List.map_congr_left
          intro i hi
          exact hrw i (List.mem_range.1 hi)
        have hdest : daddr (rewriteHeader (recvfrom old1 data))
            = daddr (rewriteHeader (recvfrom old2 data)) := by
          unfold daddr
          rw [hrw 16 (by omega), hrw 17 (by omega), hrw 18 (by omega), hrw 19 (by omega)]
        rw [hbytes, hdest]
      · have ht' : ttl (recvfrom old1 data) ≤ 1 := by omega
        rw [iteration_expired old1 data s h hb ht',
          iteration_expired old2 data s h hb2 (httl ▸ ht'), hrecv, hlab]
        exact ⟨rfl, rfl, rfl⟩
  · have h' : data.length < 20 := by omega
    rw [iteration_short old1 data s h', iteration_short old2 data s h']
    exact ⟨rfl, rfl, rfl⟩

theorem iteration_packet_exit (old : Memory) (data : List Byte) (s : Int) :
    (iteration old (.packet data) s).exit = none := by
  by_cases h : 20 ≤ data.length
  · by_cases hb : isBlockedPair (recvfrom old data)
    · rw [iteration_blocked old data s h hb]
    · by_cases ht : 2 ≤ ttl (recvfrom old data)
      · rw [iteration_forward old data s h hb ht]
      · rw [iteration_expired old data s h hb (by omega)]
  · rw [iteration_short old data s (by omega)]

theorem iteration_exit_iff (old : Memory) (r : Recv) (s : Int) :
    (iteration old r s).exit = some 1 ↔ fatalReceive r := by
  cases r with
  | failure e =>
    by_cases h : e = EINTR
    · simp [iteration, fatalReceive, h]
    · simp [iteration, fatalReceive, h]
  | packet data =>
    rw [iteration_packet_exit]
    simp [fatalReceive]

theorem iteration_exit_cases (old : Memory) (r : Recv) (s : Int) :
    (iteration old r s).exit = none ∨ (iteration old r s).exit = some 1 := by
  cases r with
  | failure e =>
    by_cases h : e = EINTR
    · left; simp [iteration, h]
    · right; simp [iteration, h]
  | packet data => left; exact iteration_packet_exit old data s

theorem mainLoop_exit_iff : ∀ (script : List (Recv × Int)) (old : Memory),
    (∃ it ∈ mainLoop old script, it.exit = some 1) ↔ (∃ x ∈ script, fatalReceive x.1) := by
  intro script
  induction script with
  | nil => intro old; simp [mainLoop]
  | cons x rest ih =>
    intro old
    obtain ⟨r, s⟩ := x
    rcases iteration_exit_cases old r s with hn | h1
    · have hnf : ¬ fatalReceive r := by
        rw [← iteration_exit_iff old r s, hn]; simp
      simp only [mainLoop, hn, Option.isSome_none, Bool.false_eq_true, if_false,
        List.mem_cons, exists_eq_or_imp, hnf, false_or]
      simpa using ih (iteration old r s).buffer
    · have hf : fatalReceive r := (iteration_exit_iff old r s).1 h1
      simp only [mainLoop, h1, Option.isSome_some, if_true, List.mem_cons, exists_eq_or_imp,
        hf, true_or, iff_true]

theorem mainLoop_runs_all : ∀ (script : List (Recv × Int)) (old : Memory),
    (∀ x ∈ script, ¬ fatalReceive x.1) →
      (mainLoop old script).length = script.length ∧
      ∀ it ∈ mainLoop old script, it.exit = none := by
  intro script
  induction script with
  | nil => intro old _; simp [mainLoop]
  | cons x rest ih =>
    intro old hno
    obtain ⟨r, s⟩ := x
    have hnf : ¬ fatalReceive r := hno (r, s) (List.mem_cons_self _ _)
    have hn : (iteration old r s).exit = none := by
      rcases iteration_exit_cases old r s with hn | h1
      · exact hn
      · exact absurd ((iteration_exit_iff old r s).1 h1) hnf
    obtain ⟨l, e⟩ := ih (iteration old r s).buffer
      (fun y hy => hno y (List.mem_cons_of_mem _ hy))
    simp only [mainLoop, hn, Option.isSome_none, Bool.false_eq_true, if_false,
      List.length_cons, l, List.mem_cons, forall_eq_or_imp, true_and]
    exact e

theorem foldCarries_small (x : Nat) (h : x < 65536) : foldCarries x = x := by
  rw [foldCarries]
  have : x / 65536 = 0 := by omega
  simp [this]

theorem foldCarries_step (x : Nat) (h : 65536 ≤ x) :
    foldCarries x = foldCarries (x % 65536 + x / 65536) := by
  rw [foldCarries]
  have : ¬ x / 65536 = 0 := by omega
  simp [this]

/-- The repeated fold always ends, and leaves no carry. -/
theorem foldCarries_lt (x : Nat) : foldCarries x < 65536 := by
  induction x using Nat.strong_induction_on with
  | _ x ih =>
    by_cases h : x < 65536
    · rw [foldCarries_small x h]; exact h
    · rw [foldCarries_step x (by omega)]
      exact ih _ (by omega)

/-- Two folds and a truncation are the repeated fold, for a 32-bit accumulator. -/
theorem fold16_eq_foldCarries (x : Nat) (hx : x < 65536 * 65536) :
    fold16 x = foldCarries x := by
  unfold fold16
  by_cases h : x < 65536
  · rw [foldCarries_small x h]
    omega
  · rw [foldCarries_step x (by omega)]
    by_cases h1 : x % 65536 + x / 65536 < 65536
    · rw [foldCarries_small _ h1]
      have hc : (x / 65536 + x % 65536) / 65536 = 0 := by omega
      rw [hc]
      omega
    · rw [foldCarries_step _ (by omega), foldCarries_small _ (by omega)]
      have hc : (x / 65536 + x % 65536) / 65536 = 1 := by omega
      have hc' : (x % 65536 + x / 65536) / 65536 = 1 := by omega
      rw [hc, hc']
      omega

theorem inet_ntop_eq_iff (m m' : Memory) (o o' : Nat) :
    inet_ntop m o = inet_ntop m' o' ↔
      (m o = m' o' ∧ m (o + 1) = m' (o' + 1) ∧ m (o + 2) = m' (o' + 2) ∧
        m (o + 3) = m' (o' + 3)) := by
  rw [inet_ntop_eq_dotted, inet_ntop_eq_dotted]
  constructor
  · exact dotted_inj _ _ _ _ _ _ _ _
  · rintro ⟨h0, h1, h2, h3⟩
    rw [h0, h1, h2, h3]

theorem block_line_iff (old : Memory) (data : List Byte) (s : Int) (h20 : 20 ≤ data.length) :
    LogLine.actionBlock ∈ (iteration old (.packet data) s).log ↔
      isBlockedPair (recvfrom old data) := by
  by_cases hb : isBlockedPair (recvfrom old data)
  · rw [iteration_blocked old data s h20 hb]
    simp [hb]
  · obtain ⟨tail, hlog, _, _, t3⟩ := log_past_filter old data s h20 hb
    rw [hlog]
    have hl : forwardLabel (recvfrom old data) ≠ LogLine.actionBlock := by
      rcases forwardLabel_cases (recvfrom old data) with ⟨_, hl⟩ | ⟨_, hl⟩ <;> rw [hl] <;> simp
    simp [receivedLine, hb, t3, hl.symm]

/-! ## Lemmas: byte order -/

theorem wordSumBE_le (p : Memory) (k : Nat) : wordSumBE p k ≤ 65535 * k := by
  unfold wordSumBE
  induction k with
  | zero => simp
  | succ k ih =>
    rw [Finset.sum_range_succ]
    have h0 := (p (2 * k)).isLt
    have h1 := (p (2 * k + 1)).isLt
    have e : load16be p (2 * k) = 256 * (p (2 * k)).val + (p (2 * k + 1)).val := rfl
    omega

/-- Swapping the bytes of every word multiplies the sum by 256 modulo 65535. -/
theorem wordSum_swap (p : Memory) (k : Nat) :
    ∃ c, 256 * wordSum p k = wordSumBE p k + 65535 * c := by
  unfold wordSum wordSumBE
  induction k with
  | zero => exact ⟨0, by simp⟩
  | succ k ih =>
    obtain ⟨c, hc⟩ := ih
    rw [Finset.sum_range_succ, Finset.sum_range_succ]
    refine ⟨c + (p (2 * k + 1)).val, ?_⟩
    have e1 : load16 p (2 * k) = (p (2 * k)).val + 256 * (p (2 * k + 1)).val := rfl
    have e2 : load16be p (2 * k) = 256 * (p (2 * k)).val + (p (2 * k + 1)).val := rfl
    omega

theorem wordSum_zero_iff (p : Memory) (k : Nat) : wordSum p k = 0 ↔ wordSumBE p k = 0 := by
  have h : wordSumBE p k ≤ 256 * wordSum p k ∧ wordSum p k ≤ 256 * wordSumBE p k := by
    unfold wordSum wordSumBE
    induction k with
    | zero => simp
    | succ k ih =>
      rw [Finset.sum_range_succ, Finset.sum_range_succ]
      have e1 : load16 p (2 * k) = (p (2 * k)).val + 256 * (p (2 * k + 1)).val := rfl
      have e2 : load16be p (2 * k) = 256 * (p (2 * k)).val + (p (2 * k + 1)).val := rfl
      omega
  omega

theorem swap_fold (L B c rL rB : Nat)
    (h1 : 256 * L = B + 65535 * c)
    (hL : rL % 65535 = L % 65535) (hL' : rL ≤ 65535) (hL0 : rL = 0 ↔ L = 0)
    (hB : rB % 65535 = B % 65535) (hB' : rB ≤ 65535) (hB0 : rB = 0 ↔ B = 0)
    (hz : L = 0 ↔ B = 0) :
    rB = 256 * (rL % 256) + rL / 256 := by
  omega

theorem swap_xy (x y : Nat) (hx : x ≤ 255) (hy : y ≤ 255) :
    (256 * x + y) % 256 = (256 * y + x) / 256 % 256 ∧
    (256 * x + y) / 256 % 256 = (256 * y + x) % 256 := by
  have a1 : (256 * x + y) % 256 = y := by omega
  have a2 : (256 * x + y) / 256 = x := by omega
  have a3 : (256 * y + x) % 256 = x := by omega
  have a4 : (256 * y + x) / 256 = y := by omega
  rw [a1, a2, a3, a4]
  omega

theorem swap_complement (rL rB : Nat) (hL' : rL ≤ 65535)
    (h : rB = 256 * (rL % 256) + rL / 256) :
    (65535 - rL) % 256 = (65535 - rB) / 256 % 256 ∧
    (65535 - rL) / 256 % 256 = (65535 - rB) % 256 := by
  have e1 : 65535 - rL = 256 * (255 - rL / 256) + (255 - rL % 256) := by omega
  have e2 : 65535 - rB = 256 * (255 - rL % 256) + (255 - rL / 256) := by omega
  rw [e1, e2]
  exact swap_xy _ _ (by omega) (by omega)

/-- The checksum computed over host-order words is the byte swap of the one
computed over network-order words. -/
theorem checksum_swap (p : Memory) (nbytes : Nat) (heven : nbytes % 2 = 0)
    (hlen : nbytes ≤ 65536) :
    toByte (calculate_checksum p nbytes) = toByte (checksumBE p nbytes / 256) ∧
    toByte (calculate_checksum p nbytes / 256) = toByte (checksumBE p nbytes) := by
  have hraw : rawSum p nbytes = wordSum p (nbytes / 2) := by
    have e : nbytes = 2 * (nbytes / 2) := by omega
    rw [e, rawSum_even]
    congr 1
    omega
  have hLle := wordSum_le p (nbytes / 2)
  have hBle := wordSumBE_le p (nbytes / 2)
  obtain ⟨c, hc⟩ := wordSum_swap p (nbytes / 2)
  have hz := wordSum_zero_iff p (nbytes / 2)
  have sL := fold16_spec (wordSum p (nbytes / 2)) (by omega)
  have sB := fold16_spec (wordSumBE p (nbytes / 2)) (by omega)
  have hsw := swap_fold _ _ c _ _ hc sL.1 sL.2.1 sL.2.2 sB.1 sB.2.1 sB.2.2 hz
  have hfin := swap_complement _ _ sL.2.1 hsw
  rw [calculate_checksum_eq, hraw]
  unfold checksumBE
  rw [← fold16_eq_foldCarries _ (by omega)]
  unfold toByte
  exact ⟨Fin.ext hfin.1, Fin.ext hfin.2⟩

theorem store16_eq_store16be (p : Memory) (o v w : Nat)
    (h0 : toByte v = toByte (w / 256)) (h1 : toByte (v / 256) = toByte w) :
    store16 p o v = store16be p o w := by
  unfold store16 store16be
  rw [h0, h1]

/-! ## Lemmas: the incoming checksum -/

theorem zeroedHeader_ignores_check (b1 b2 : Memory)
    (h : ∀ i, i ≠ 10 → i ≠ 11 → b1 i = b2 i) : zeroedHeader b1 = zeroedHeader b2 := by
  funext i
  unfold zeroedHeader
  by_cases h10 : i = 10
  · subst h10; simp [store16, store8]
  · by_cases h11 : i = 11
    · subst h11; simp [store16, store8]
    · rw [store16_other _ _ _ _ h10 h11, store16_other _ _ _ _ h10 h11]
      by_cases h8 : i = 8
      · subst h8
        rw [store8_same, store8_same]
        unfold ttl
        rw [h 8 (by decide) (by decide)]
      · rw [store8_other _ _ _ _ h8, store8_other _ _ _ _ h8]
        exact h i h10 h11

theorem rewriteHeader_ignores_check (b1 b2 : Memory)
    (h : ∀ i, i ≠ 10 → i ≠ 11 → b1 i = b2 i) : rewriteHeader b1 = rewriteHeader b2 := by
  have hi : ihl b1 = ihl b2 := by
    unfold ihl; rw [h 0 (by decide) (by decide)]
  rw [rewriteHeader_eq, rewriteHeader_eq, zeroedHeader_ignores_check b1 b2 h, hi]

theorem recvfrom_agree_off_check (old : Memory) (data1 data2 : List Byte)
    (hlen : data1.length = data2.length)
    (hd : ∀ i, i ≠ 10 → i ≠ 11 → data1[i]? = data2[i]?) :
    ∀ i, i ≠ 10 → i ≠ 11 → recvfrom old data1 i = recvfrom old data2 i := by
  intro i h10 h11
  by_cases hi : i < data1.length
  · have hi2 : i < data2.length := by omega
    have := hd i h10 h11
    rw [List.getElem?_eq_getElem hi, List.getElem?_eq_getElem hi2] at this
    rw [recvfrom_lt old data1 i hi, recvfrom_lt old data2 i hi2]
    simpa using this
  · rw [recvfrom_ge old data1 i (by omega), recvfrom_ge old data2 i (by omega)]

/-- Two packets of equal length that differ at most in bytes 10-11, received into
the same buffer, give the same lines, the same `sendto` call and the same exit. -/
theorem iteration_ignores_check (old : Memory) (data1 data2 : List Byte) (s : Int)
    (hlen : data1.length = data2.length)
    (hd : ∀ i, i ≠ 10 → i ≠ 11 → data1[i]? = data2[i]?) :
    (iteration old (.packet data1) s).sendto = (iteration old (.packet data2) s).sendto ∧
    (iteration old (.packet data1) s).log = (iteration old (.packet data2) s).log ∧
    (iteration old (.packet data1) s).exit = (iteration old (.packet data2) s).exit := by
  have hag := recvfrom_agree_off_check old data1 data2 hlen hd
  by_cases h : 20 ≤ data1.length
  · have h2 : 20 ≤ data2.length := by omega
    have hblk : isBlockedPair (recvfrom old data1) ↔ isBlockedPair (recvfrom old data2) := by
      unfold isBlockedPair saddr daddr
      rw [hag 12 (by decide) (by decide), hag 13 (by decide) (by decide),
        hag 14 (by decide) (by decide), hag 15 (by decide) (by decide),
        hag 16 (by decide) (by decide), hag 17 (by decide) (by decide),
        hag 18 (by decide) (by decide), hag 19 (by decide) (by decide)]
    have hall : isAllowedPair (recvfrom old data1) ↔ isAllowedPair (recvfrom old data2) := by
      unfold isAllowedPair saddr daddr
      rw [hag 12 (by decide) (by decide), hag 13 (by decide) (by decide),
        hag 14 (by decide) (by decide), hag 15 (by decide) (by decide),
        hag 16 (by decide) (by decide), hag 17 (by decide) (by decide),
        hag 18 (by decide) (by decide), hag 19 (by decide) (by decide)]
    have hrecv : receivedLine (recvfrom old data1) data1.length
        = receivedLine (recvfrom old data2) data2.length := by
      unfold receivedLine inet_ntop protocol
      rw [hag 12 (by decide) (by decide), hag 13 (by decide) (by decide),
        hag 14 (by decide) (by decide), hag 15 (by decide) (by decide),
        hag 16 (by decide) (by decide), hag 17 (by decide) (by decide),
        hag 18 (by decide) (by decide), hag 19 (by decide) (by decide),
        hag 9 (by decide) (by decide), hlen]
    have hlab : forwardLabel (recvfrom old data1) = forwardLabel (recvfrom old data2) := by
      unfold forwardLabel
      simp only [hall]
    have httl : ttl (recvfrom old data1) = ttl (recvfrom old data2) := by
      unfold ttl; rw [hag 8 (by decide) (by decide)]
    have hrw := rewriteHeader_ignores_check _ _ hag
    by_cases hb : isBlockedPair (recvfrom old data1)
    · rw [iteration_blocked old data1 s h hb, iteration_blocked old data2 s h2 (hblk.1 hb),
        hrecv]
      exact ⟨rfl, rfl, rfl⟩
    · have hb2 : ¬ isBlockedPair (recvfrom old data2) := fun x => hb (hblk.2 x)
      by_cases ht : 2 ≤ ttl (recvfrom old data1)
      · rw [iteration_forward old data1 s h hb ht,
          iteration_forward old data2 s h2 hb2 (httl ▸ ht), hrecv, hlab, hrw, hlen]
        exact ⟨rfl, rfl, rfl⟩
      · have ht' : ttl (recvfrom old data1) ≤ 1 := by omega
        rw [iteration_expired old data1 s h hb ht',
          iteration_expired old data2 s h2 hb2 (httl ▸ ht'), hrecv, hlab]
        exact ⟨rfl, rfl, rfl⟩
  · rw [iteration_short old data1 s (by omega), iteration_short old data2 s (by omega)]
    exact ⟨rfl, rfl, rfl⟩

/-- Running lines 124-125 again on a rewritten header gives the same header. -/
theorem rewriteHeader_recompute (b : Memory) :
    store16 (store16 (rewriteHeader b) 10 0) 10
        (calculate_checksum (store16 (rewriteHeader b) 10 0)
          (ihl (store16 (rewriteHeader b) 10 0) * 4))
      = rewriteHeader b := by
  have e : store16 (rewriteHeader b) 10 0 = zeroedHeader b := by
    rw [rewriteHeader_eq, store16_store16, zeroedHeader_store]
  rw [e, ihl_zeroedHeader, ← rewriteHeader_eq]

/-! ## Lemmas: incremental update -/

theorem onesAdd_spec (a b : Nat) (ha : a ≤ 65535) (hb : b ≤ 65535) :
    onesAdd a b ≤ 65535 ∧ onesAdd a b % 65535 = (a + b) % 65535 ∧
      (onesAdd a b = 0 ↔ a + b = 0) := by
  unfold onesAdd
  by_cases h : a + b < 65536
  · have h1 : (a + b) / 65536 = 0 := by omega
    have h2 : (a + b) % 65536 = a + b := by omega
    rw [h1, h2]
    omega
  · have h1 : (a + b) / 65536 = 1 := by omega
    have h2 : (a + b) % 65536 = a + b - 65536 := by omega
    rw [h1, h2]
    omega

theorem restSum_split (p : Memory) (k : Nat) (hk : 5 < k) :
    restSum p k = load16 p 8 + restSum2 p k := by
  unfold restSum restSum2
  have h4 : (4 : Nat) ∈ (Finset.range k).erase 5 := by
    simp only [Finset.mem_erase, Finset.mem_range]
    omega
  exact (Finset.add_sum_erase _ (fun i => load16 p (2 * i)) h4).symm

theorem restSum2_congr (p q : Memory) (k : Nat)
    (h : ∀ i, i ≠ 8 → i ≠ 9 → i ≠ 10 → i ≠ 11 → p i = q i) :
    restSum2 p k = restSum2 q k := by
  unfold restSum2
  apply Finset.sum_congr rfl
  intro i hi
  have h4 : i ≠ 4 := (Finset.mem_erase.1 hi).1
  have h5 : i ≠ 5 := (Finset.mem_erase.1 (Finset.mem_erase.1 hi).2).1
  exact load16_congr p q _ (h _ (by omega) (by omega) (by omega) (by omega))
    (h _ (by omega) (by omega) (by omega) (by omega))

theorem restSum2_le (p : Memory) (k : Nat) : restSum2 p k ≤ 65535 * k := by
  refine le_trans ?_ (restSum_le p k)
  unfold restSum2 restSum
  exact Finset.sum_le_sum_of_subset (Finset.erase_subset _ _)

theorem zeroedHeader_other (b : Memory) (i : Nat) (h8 : i ≠ 8) (h10 : i ≠ 10) (h11 : i ≠ 11) :
    zeroedHeader b i = b i := by
  unfold zeroedHeader
  rw [store16_other _ _ _ _ h10 h11, store8_other _ _ _ _ h8]

/-- The TTL/protocol word after the decrement, for a TTL that is not zero. -/
theorem load16_ttl_decremented (b : Memory) (ht : 1 ≤ ttl b) :
    load16 (zeroedHeader b) 8 + 1 = load16 b 8 ∧
    load16 (rewriteHeader b) 8 = load16 (zeroedHeader b) 8 := by
  have hlt : ttl b < 256 := (b 8).isLt
  constructor
  · unfold load16
    rw [zeroedHeader_other b 9 (by decide) (by decide) (by decide)]
    unfold zeroedHeader
    rw [store16_other _ _ _ _ (by decide) (by decide), store8_same]
    have ettl : ttl b = (b 8).val := rfl
    simp only [toByte, Nat.reduceAdd]
    omega
  · unfold load16
    rw [rewriteHeader_ttl, rewriteHeader_other b 9 (by decide) (by decide) (by decide),
      zeroedHeader_other b 9 (by decide) (by decide) (by decide)]
    unfold zeroedHeader
    rw [store16_other _ _ _ _ (by decide) (by decide), store8_same]

theorem incremental_arith (hc m m' r2 rT : Nat) (hhc : hc ≤ 65535) (hm : m ≤ 65535)
    (hm' : m' + 1 = m) (hpos : 1 ≤ m')
    (hvalid : (hc + (m + r2)) % 65535 = 0)
    (hT : rT % 65535 = (0 + (m' + r2)) % 65535) (hT' : rT ≤ 65535)
    (hT0 : rT = 0 ↔ 0 + (m' + r2) = 0) :
    65535 - rT = incrementalUpdate hc m m' := by
  unfold incrementalUpdate not16
  have s1 := onesAdd_spec (65535 - hc) (65535 - m) (by omega) (by omega)
  have s2 := onesAdd_spec (onesAdd (65535 - hc) (65535 - m)) m' s1.1 (by omega)
  generalize onesAdd (onesAdd (65535 - hc) (65535 - m)) m' = t at *
  generalize onesAdd (65535 - hc) (65535 - m) = u at *
  omega

/-! ## Theorems -/

/-- C1 (counterexample). The header `minusZeroHeader` has IHL 5, validates
(`calculate_checksum` over its 20 bytes returns 0) and stores 0xFFFF in its
checksum field, yet zeroing the field and recomputing returns 0, not 0xFFFF. -/
theorem checksum_round_trip_minus_zero :
    ihl (memOf minusZeroHeader) = 5 ∧
    calculate_checksum (memOf minusZeroHeader) (ihl (memOf minusZeroHeader) * 4) = 0 ∧
    check (memOf minusZeroHeader) = 65535 ∧
    calculate_checksum (store16 (memOf minusZeroHeader) 10 0)
      (ihl (memOf minusZeroHeader) * 4) = 0 := by
  decide

/-- C1 (amended). For every header whose own IHL is in 5..15 and that validates
(`calculate_checksum` over its `ihl*4` bytes returns 0), zeroing the checksum field
and recomputing over the same bytes returns the stored value, except that a stored
0xFFFF (negative zero) comes back as 0x0000. -/
theorem checksum_round_trip (hdr : Memory) (h5 : 5 ≤ ihl hdr) (h15 : ihl hdr ≤ 15)
    (hv : calculate_checksum hdr (ihl hdr * 4) = 0) :
    calculate_checksum (store16 hdr 10 0) (ihl hdr * 4)
      = if check hdr = 65535 then 0 else check hdr := by
  have e : ihl hdr * 4 = 2 * (2 * ihl hdr) := by omega
  have hk : 5 < 2 * ihl hdr := by omega
  rw [e] at hv ⊢
  rw [calculate_checksum_eq, rawSum_header _ _ hk] at hv
  rw [calculate_checksum_eq, rawSum_header _ _ hk, load16_store16 _ _ _ (by decide),
    restSum_store16]
  have hR := restSum_le hdr (2 * ihl hdr)
  have hpos := restSum_pos hdr (2 * ihl hdr) hk (by omega)
  have hC := load16_lt hdr 10
  unfold check
  generalize restSum hdr (2 * ihl hdr) = R at *
  generalize load16 hdr 10 = C at *
  have h1 := fold16_spec (0 + R) (by omega)
  have h2 := fold16_spec (C + R) (by omega)
  generalize fold16 (C + R) = t at *
  generalize fold16 (0 + R) = r at *
  split <;> omega

/-- C1 (witness): the amended round trip on the header of `allowedPacket`. -/
theorem checksum_round_trip_witness :
    (5 ≤ ihl (memOf allowedPacket) ∧ ihl (memOf allowedPacket) ≤ 15 ∧
      calculate_checksum (memOf allowedPacket) (ihl (memOf allowedPacket) * 4) = 0) ∧
    calculate_checksum (store16 (memOf allowedPacket) 10 0) (ihl (memOf allowedPacket) * 4)
      = if check (memOf allowedPacket) = 65535 then 0 else check (memOf allowedPacket) :=
  ⟨by decide, checksum_round_trip (memOf allowedPacket) (by decide) (by decide) (by decide)⟩

/-- C2. For every packet that the loop forwards and whose IHL is in 5..15, after
the header rewrite `calculate_checksum` over the same `ihl*4` header bytes of the
buffer, new checksum included, returns 0; when the packet holds its whole header
the same is true of the bytes handed to `sendto`. -/
theorem forwarded_header_validates (old : Memory) (data : List Byte) (s : Int)
    (hsend : (iteration old (.packet data) s).sendto.isSome)
    (h5 : 5 ≤ ihl (recvfrom old data)) (h15 : ihl (recvfrom old data) ≤ 15) :
    calculate_checksum (iteration old (.packet data) s).buffer
        (ihl (iteration old (.packet data) s).buffer * 4) = 0 ∧
    (∀ call, (iteration old (.packet data) s).sendto = some call →
      ihl (recvfrom old data) * 4 ≤ data.length →
      calculate_checksum (memOf call.bytes) (ihl (memOf call.bytes) * 4) = 0) := by
  obtain ⟨h20, hb, ht⟩ := (sendto_isSome_iff old data s).1 hsend
  rw [iteration_forward old data s h20 hb ht]
  simp only []
  have hval := rewriteHeader_validates (recvfrom old data) (by omega)
  refine ⟨by rw [ihl_rewriteHeader]; exact hval, fun call hcall hlen => ?_⟩
  simp only [Option.some.injEq] at hcall
  subst hcall
  simp only []
  have hi : ihl (memOf (readBytes (rewriteHeader (recvfrom old data)) data.length))
      = ihl (recvfrom old data) := by
    rw [← ihl_rewriteHeader (recvfrom old data)]
    unfold ihl
    rw [memOf_readBytes _ _ 0 (by omega)]
  rw [hi, ← hval]
  exact calculate_checksum_congr _ _ _ (fun i hi => memOf_readBytes _ _ _ (by omega))

/-- C2 (witness): forwarding `allowedPacket` from an all-zero buffer. -/
theorem forwarded_header_validates_witness :
    ((iteration zeroMem (.packet allowedPacket) 20).sendto.isSome ∧
      5 ≤ ihl (recvfrom zeroMem allowedPacket) ∧ ihl (recvfrom zeroMem allowedPacket) ≤ 15) ∧
    calculate_checksum (iteration zeroMem (.packet allowedPacket) 20).buffer
        (ihl (iteration zeroMem (.packet allowedPacket) 20).buffer * 4) = 0 :=
  ⟨by decide,
   (forwarded_header_validates zeroMem allowedPacket 20
      (by decide) (by decide) (by decide)).1⟩

/-- C3 (counterexample). The 24-byte packet `shortIhlPacket` has header-length
field 4, yet the pass transmits it (TTL decremented to 63, checksum rewritten over
16 bytes) to 10.0.0.9, and the buffer no longer holds the bytes received. -/
theorem short_ihl_is_forwarded :
    ihl (recvfrom zeroMem shortIhlPacket) = 4 ∧
    (iteration zeroMem (.packet shortIhlPacket) 24).sendto = some shortIhlSent ∧
    (iteration zeroMem (.packet shortIhlPacket) 24).buffer 8 ≠ recvfrom zeroMem shortIhlPacket 8 := by
  decide

/-- C3 (amended). The header-length field is never a reason to discard: a
received packet with `ihl < 5` is discarded (no transmit, buffer left as received)
exactly when it is shorter than 20 bytes, or is the blocked pair, or has TTL at most
1; every other packet with `ihl < 5` is transmitted after the header rewrite. -/
theorem short_ihl_not_checked (old : Memory) (data : List Byte) (s : Int)
    (_h : ihl (recvfrom old data) < 5) :
    (((iteration old (.packet data) s).sendto = none ∧
        (iteration old (.packet data) s).buffer = recvfrom old data) ↔
      (data.length < 20 ∨ isBlockedPair (recvfrom old data) ∨ ttl (recvfrom old data) ≤ 1)) ∧
    (20 ≤ data.length → ¬ isBlockedPair (recvfrom old data) → 2 ≤ ttl (recvfrom old data) →
      (iteration old (.packet data) s).sendto =
        some ⟨readBytes (rewriteHeader (recvfrom old data)) data.length,
          daddr (recvfrom old data)⟩) := by
  constructor
  · by_cases h : 20 ≤ data.length
    · by_cases hb : isBlockedPair (recvfrom old data)
      · simp [iteration_blocked old data s h hb, hb]
      · by_cases ht : 2 ≤ ttl (recvfrom old data)
        · have h1 : ¬ data.length < 20 := by omega
          have h2 : ¬ ttl (recvfrom old data) ≤ 1 := by omega
          simp [iteration_forward old data s h hb ht, hb, h1, h2]
        · have ht' : ttl (recvfrom old data) ≤ 1 := by omega
          simp [iteration_expired old data s h hb ht', ht']
    · have h' : data.length < 20 := by omega
      simp [iteration_short old data s h', h']
  · intro h hb ht
    rw [iteration_forward old data s h hb ht]
    simp only [Option.some.injEq, Sendto.mk.injEq, true_and]
    unfold daddr
    rw [rewriteHeader_other _ 16 (by decide) (by decide) (by decide),
      rewriteHeader_other _ 17 (by decide) (by decide) (by decide),
      rewriteHeader_other _ 18 (by decide) (by decide) (by decide),
      rewriteHeader_other _ 19 (by decide) (by decide) (by decide)]

/-- C3 (witness): the amended statement at `shortIhlPacket`. -/
theorem short_ihl_not_checked_witness :
    ihl (recvfrom zeroMem shortIhlPacket) < 5 ∧
    (((iteration zeroMem (.packet shortIhlPacket) 24).sendto = none ∧
        (iteration zeroMem (.packet shortIhlPacket) 24).buffer
          = recvfrom zeroMem shortIhlPacket) ↔
      (shortIhlPacket.length < 20 ∨ isBlockedPair (recvfrom zeroMem shortIhlPacket) ∨
        ttl (recvfrom zeroMem shortIhlPacket) ≤ 1)) :=
  ⟨by decide, (short_ihl_not_checked zeroMem shortIhlPacket 24 (by decide)).1⟩

/-- C4. For every packet that passes the filter (at least 20 bytes, not the
blocked pair): if its TTL byte is at least 2 the packet is transmitted and byte 8
of the transmitted bytes is exactly TTL - 1, without wrap-around; if its TTL is 0
or 1 nothing is transmitted and the TTL and checksum bytes stay as received. -/
theorem hop_limit_decrement (old : Memory) (data : List Byte) (s : Int)
    (h20 : 20 ≤ data.length) (hb : ¬ isBlockedPair (recvfrom old data)) :
    (2 ≤ ttl (recvfrom old data) →
      ∃ call, (iteration old (.packet data) s).sendto = some call ∧
        (call.bytes[8]?).map Fin.val = some (ttl (recvfrom old data) - 1)) ∧
    (ttl (recvfrom old data) ≤ 1 →
      (iteration old (.packet data) s).sendto = none ∧
      (iteration old (.packet data) s).buffer 8 = recvfrom old data 8 ∧
      (iteration old (.packet data) s).buffer 10 = recvfrom old data 10 ∧
      (iteration old (.packet data) s).buffer 11 = recvfrom old data 11) := by
  constructor
  · intro ht
    rw [iteration_forward old data s h20 hb ht]
    refine ⟨_, rfl, ?_⟩
    simp only []
    rw [readBytes_getElem? _ _ 8 (by omega), rewriteHeader_ttl]
    have hlt : ttl (recvfrom old data) < 256 := (recvfrom old data 8).isLt
    simp only [Option.map_some', toByte, Option.some.injEq]
    omega
  · intro ht
    rw [iteration_expired old data s h20 hb ht]
    exact ⟨rfl, rfl, rfl, rfl⟩

/-- C4 (witness): `allowedPacket` (TTL 64) leaves with TTL 63, and
`expiringPacket` (TTL 1) is not transmitted. -/
theorem hop_limit_decrement_witness :
    ((20 ≤ allowedPacket.length ∧ ¬ isBlockedPair (recvfrom zeroMem allowedPacket) ∧
      2 ≤ ttl (recvfrom zeroMem allowedPacket)) ∧
     ∃ call, (iteration zeroMem (.packet allowedPacket) 20).sendto = some call ∧
      (call.bytes[8]?).map Fin.val = some (ttl (recvfrom zeroMem allowedPacket) - 1)) ∧
    ((20 ≤ expiringPacket.length ∧ ¬ isBlockedPair (recvfrom zeroMem expiringPacket) ∧
      ttl (recvfrom zeroMem expiringPacket) ≤ 1) ∧
     (iteration zeroMem (.packet expiringPacket) 20).sendto = none) :=
  ⟨⟨by decide,
    (hop_limit_decrement zeroMem allowedPacket 20 (by decide) (by decide)).1 (by decide)⟩,
   ⟨by decide,
    ((hop_limit_decrement zeroMem expiringPacket 20 (by decide) (by decide)).2
      (by decide)).1⟩⟩

/-- C5. Every received packet whose source is 192.168.2.3 and whose destination
is 192.168.2.1 is dropped: nothing is transmitted, the buffer stays as received and
the loop goes on, whatever its TTL, header length, protocol, payload and length;
for a packet of at least 20 bytes the only lines printed are the receive line and
the BLOCK line, so rule 1 is decided before rule 2, the default and the TTL test. -/
theorem block_rule_precedence (old : Memory) (data : List Byte) (s : Int)
    (hb : isBlockedPair (recvfrom old data)) :
    (iteration old (.packet data) s).sendto = none ∧
    (iteration old (.packet data) s).buffer = recvfrom old data ∧
    (iteration old (.packet data) s).exit = none ∧
    (20 ≤ data.length →
      (iteration old (.packet data) s).log
        = [receivedLine (recvfrom old data) data.length, LogLine.actionBlock]) := by
  by_cases h : 20 ≤ data.length
  · rw [iteration_blocked old data s h hb]
    exact ⟨rfl, rfl, rfl, fun _ => rfl⟩
  · have h' : data.length < 20 := by omega
    rw [iteration_short old data s h']
    exact ⟨rfl, rfl, rfl, fun h20 => absurd h20 h⟩

/-- C5 (witness): `blockedPacket` is dropped. -/
theorem block_rule_precedence_witness :
    isBlockedPair (recvfrom zeroMem blockedPacket) ∧
    (iteration zeroMem (.packet blockedPacket) 20).sendto = none :=
  ⟨by decide, (block_rule_precedence zeroMem blockedPacket 20 (by decide)).1⟩

/-- C6. For every packet of at least 20 bytes: if it is 192.168.2.4 ->
192.168.2.1 the pass prints ALLOW (not DEFAULT, not BLOCK) and goes on to the
forwarding step, which transmits exactly when TTL is at least 2; if its pair is
neither the blocked nor the allowed one the pass prints DEFAULT (not ALLOW, not
BLOCK) and goes on to the same step; and no pass prints both ALLOW and DEFAULT. -/
theorem allow_and_default_labels (old : Memory) (data : List Byte) (s : Int)
    (h20 : 20 ≤ data.length) :
    (isAllowedPair (recvfrom old data) →
      LogLine.actionAllow ∈ (iteration old (.packet data) s).log ∧
      LogLine.actionDefault ∉ (iteration old (.packet data) s).log ∧
      LogLine.actionBlock ∉ (iteration old (.packet data) s).log ∧
      ((iteration old (.packet data) s).sendto.isSome ↔ 2 ≤ ttl (recvfrom old data))) ∧
    (¬ isBlockedPair (recvfrom old data) → ¬ isAllowedPair (recvfrom old data) →
      LogLine.actionDefault ∈ (iteration old (.packet data) s).log ∧
      LogLine.actionAllow ∉ (iteration old (.packet data) s).log ∧
      LogLine.actionBlock ∉ (iteration old (.packet data) s).log ∧
      ((iteration old (.packet data) s).sendto.isSome ↔ 2 ≤ ttl (recvfrom old data))) ∧
    ¬ (LogLine.actionAllow ∈ (iteration old (.packet data) s).log ∧
        LogLine.actionDefault ∈ (iteration old (.packet data) s).log) := by
  have key : ∀ (hb : ¬ isBlockedPair (recvfrom old data)),
      (isAllowedPair (recvfrom old data) →
        LogLine.actionAllow ∈ (iteration old (.packet data) s).log ∧
        LogLine.actionDefault ∉ (iteration old (.packet data) s).log ∧
        LogLine.actionBlock ∉ (iteration old (.packet data) s).log) ∧
      (¬ isAllowedPair (recvfrom old data) →
        LogLine.actionDefault ∈ (iteration old (.packet data) s).log ∧
        LogLine.actionAllow ∉ (iteration old (.packet data) s).log ∧
        LogLine.actionBlock ∉ (iteration old (.packet data) s).log) := by
    intro hb
    obtain ⟨tail, hlog, t1, t2, t3⟩ := log_past_filter old data s h20 hb
    rw [hlog]
    rcases forwardLabel_cases (recvfrom old data) with ⟨ha, hl⟩ | ⟨ha, hl⟩
    · rw [hl]
      refine ⟨fun _ => ?_, fun hn => absurd ha hn⟩
      simp [receivedLine, t2, t3]
    · rw [hl]
      refine ⟨fun h => absurd h ha, fun _ => ?_⟩
      simp [receivedLine, t1, t3]
  have hsend : ¬ isBlockedPair (recvfrom old data) →
      ((iteration old (.packet data) s).sendto.isSome ↔ 2 ≤ ttl (recvfrom old data)) := by
    intro hb
    rw [sendto_isSome_iff]
    exact ⟨fun h => h.2.2, fun h => ⟨h20, hb, h⟩⟩
  refine ⟨fun ha => ?_, fun hb ha => ?_, ?_⟩
  · have hb := allowed_not_blocked _ ha
    obtain ⟨a1, a2, a3⟩ := (key hb).1 ha
    exact ⟨a1, a2, a3, hsend hb⟩
  · obtain ⟨a1, a2, a3⟩ := (key hb).2 ha
    exact ⟨a1, a2, a3, hsend hb⟩
  · rintro ⟨hA, hD⟩
    by_cases hb : isBlockedPair (recvfrom old data)
    · rw [iteration_blocked old data s h20 hb] at hA
      simp [receivedLine] at hA
    · by_cases ha : isAllowedPair (recvfrom old data)
      · exact ((key hb).1 ha).2.1 hD
      · exact ((key hb).2 ha).2.1 hA

/-- C6 (witness): `allowedPacket` is labelled ALLOW, `defaultPacket` DEFAULT. -/
theorem allow_and_default_labels_witness :
    (20 ≤ allowedPacket.length ∧ isAllowedPair (recvfrom zeroMem allowedPacket)) ∧
    LogLine.actionAllow ∈ (iteration zeroMem (.packet allowedPacket) 20).log :=
  ⟨by decide,
   ((allow_and_default_labels zeroMem allowedPacket 20 (by decide)).1 (by decide)).1⟩

/-- C7. For every received length below 20 and every buffer content, the pass
goes back to receiving: nothing is printed (the filter is not evaluated), the
buffer stays as `recvfrom` left it, and `sendto` is not called. -/
theorem short_packet_rejected (old : Memory) (data : List Byte) (s : Int)
    (h : data.length < 20) :
    (iteration old (.packet data) s).log = [] ∧
    (iteration old (.packet data) s).sendto = none ∧
    (iteration old (.packet data) s).buffer = recvfrom old data ∧
    (iteration old (.packet data) s).exit = none := by
  rw [iteration_short old data s h]
  exact ⟨rfl, rfl, rfl, rfl⟩

/-- C7 (witness): a 12-byte packet arriving over the bytes of a blocked packet. -/
theorem short_packet_rejected_witness :
    (runtPacket.length < 20 ∧ isBlockedPair (recvfrom (memOf blockedPacket) runtPacket)) ∧
    (iteration (memOf blockedPacket) (.packet runtPacket) 12).log = [] ∧
    (iteration (memOf blockedPacket) (.packet runtPacket) 12).sendto = none :=
  ⟨by decide,
   (short_packet_rejected (memOf blockedPacket) runtPacket 12 (by decide)).1,
   (short_packet_rejected (memOf blockedPacket) runtPacket 12 (by decide)).2.1⟩

/-- C8. The function `calculate_checksum(ptr, n)` depends only on the first `n`
bytes at `ptr`; hence for every two forwarded packets with the same IHL whose
buffers agree on the first `ihl*4` bytes the checksum stored in the header is the
same, whatever the bytes at offsets `ihl*4` and beyond; in particular for two
packets that hold their whole header and agree on it. -/
theorem payload_excluded_from_checksum :
    (∀ (p q : Memory) (n : Nat), (∀ i < n, p i = q i) →
      calculate_checksum p n = calculate_checksum q n) ∧
    (∀ (old1 old2 : Memory) (data1 data2 : List Byte) (s1 s2 : Int),
      (iteration old1 (.packet data1) s1).sendto.isSome →
      (iteration old2 (.packet data2) s2).sendto.isSome →
      ihl (recvfrom old1 data1) = ihl (recvfrom old2 data2) →
      (∀ i < ihl (recvfrom old1 data1) * 4, recvfrom old1 data1 i = recvfrom old2 data2 i) →
      check (iteration old1 (.packet data1) s1).buffer
        = check (iteration old2 (.packet data2) s2).buffer) ∧
    (∀ (old1 old2 : Memory) (data1 data2 : List Byte) (s1 s2 : Int) (n : Nat),
      (iteration old1 (.packet data1) s1).sendto.isSome →
      (iteration old2 (.packet data2) s2).sendto.isSome →
      n = ihl (memOf data1) * 4 → n = ihl (memOf data2) * 4 →
      n ≤ data1.length → n ≤ data2.length → data1.take n = data2.take n →
      check (iteration old1 (.packet data1) s1).buffer
        = check (iteration old2 (.packet data2) s2).buffer) := by
  have second : ∀ (old1 old2 : Memory) (data1 data2 : List Byte) (s1 s2 : Int),
      (iteration old1 (.packet data1) s1).sendto.isSome →
      (iteration old2 (.packet data2) s2).sendto.isSome →
      ihl (recvfrom old1 data1) = ihl (recvfrom old2 data2) →
      (∀ i < ihl (recvfrom old1 data1) * 4, recvfrom old1 data1 i = recvfrom old2 data2 i) →
      check (iteration old1 (.packet data1) s1).buffer
        = check (iteration old2 (.packet data2) s2).buffer := by
    intro old1 old2 data1 data2 s1 s2 hs1 hs2 hi hag
    obtain ⟨a1, a2, a3⟩ := (sendto_isSome_iff old1 data1 s1).1 hs1
    obtain ⟨b1, b2, b3⟩ := (sendto_isSome_iff old2 data2 s2).1 hs2
    rw [iteration_forward old1 data1 s1 a1 a2 a3, iteration_forward old2 data2 s2 b1 b2 b3]
    exact check_rewriteHeader_congr _ _ hi hag
  refine ⟨calculate_checksum_congr, second, ?_⟩
  intro old1 old2 data1 data2 s1 s2 n hs1 hs2 hn1 hn2 hl1 hl2 htake
  have a1 := ((sendto_isSome_iff old1 data1 s1).1 hs1).1
  have b1 := ((sendto_isSome_iff old2 data2 s2).1 hs2).1
  have m1 : ∀ i < data1.length, recvfrom old1 data1 i = memOf data1 i := by
    intro i hi
    simp [recvfrom, memOf, hi, List.getD, List.getElem?_eq_getElem hi]
  have m2 : ∀ i < data2.length, recvfrom old2 data2 i = memOf data2 i := by
    intro i hi
    simp [recvfrom, memOf, hi, List.getD, List.getElem?_eq_getElem hi]
  have e1 : ihl (recvfrom old1 data1) = ihl (memOf data1) := by
    unfold ihl; rw [m1 0 (by omega)]
  have e2 : ihl (recvfrom old2 data2) = ihl (memOf data2) := by
    unfold ihl; rw [m2 0 (by omega)]
  apply second old1 old2 data1 data2 s1 s2 hs1 hs2
  · rw [e1, e2]; omega
  · intro i hi
    rw [e1, ← hn1] at hi
    rw [m1 i (by omega), m2 i (by omega)]
    have t1 : (data1.take n)[i]? = data1[i]? := by rw [List.getElem?_take]; simp [hi]
    have t2 : (data2.take n)[i]? = data2[i]? := by rw [List.getElem?_take]; simp [hi]
    have key : data1[i]? = data2[i]? := by rw [← t1, ← t2, htake]
    simp only [memOf, List.getD_eq_getElem?_getD, key]

/-- C8 (witness): two forwarded packets with the header of `allowedPacket` and
different payloads of different lengths get the same stored checksum. -/
theorem payload_excluded_from_checksum_witness :
    ((iteration zeroMem (.packet payloadPacketA) 22).sendto.isSome ∧
      (iteration (memOf blockedPacket) (.packet payloadPacketB) 23).sendto.isSome ∧
      payloadPacketA.take 20 = payloadPacketB.take 20 ∧ payloadPacketA ≠ payloadPacketB) ∧
    check (iteration zeroMem (.packet payloadPacketA) 22).buffer
      = check (iteration (memOf blockedPacket) (.packet payloadPacketB) 23).buffer :=
  ⟨by decide,
   payload_excluded_from_checksum.2.2 zeroMem (memOf blockedPacket) payloadPacketA
     payloadPacketB 22 23 20 (by decide) (by decide) (by decide) (by decide) (by decide)
     (by decide) (by decide)⟩

/-- C9. For every packet that is transmitted, the bytes handed to `sendto` have
the length of the received packet and equal the received bytes at every offset
other than 8 (TTL) and 10, 11 (checksum), and the send is addressed to the four
destination-address bytes 16..19 of the received packet. -/
theorem forward_frame (old : Memory) (data : List Byte) (s : Int) (call : Sendto)
    (hsend : (iteration old (.packet data) s).sendto = some call) :
    call.bytes.length = data.length ∧
    (∀ i, i ≠ 8 → i ≠ 10 → i ≠ 11 → call.bytes[i]? = data[i]?) ∧
    call.dest.length = 4 ∧
    (∀ j < 4, call.dest[j]? = data[16 + j]?) := by
  have hs : (iteration old (.packet data) s).sendto.isSome := by simp [hsend]
  obtain ⟨h20, hb, ht⟩ := (sendto_isSome_iff old data s).1 hs
  rw [iteration_forward old data s h20 hb ht] at hsend
  simp only [Option.some.injEq] at hsend
  subst hsend
  simp only []
  have hd : ∀ i (hi : i < data.length), recvfrom old data i = data[i] := by
    intro i hi
    simp [recvfrom, hi]
  refine ⟨readBytes_length _ _, ?_, rfl, ?_⟩
  · intro i h8 h10 h11
    by_cases hi : i < data.length
    · rw [readBytes_getElem? _ _ i hi, rewriteHeader_other _ i h8 h10 h11, hd i hi,
        List.getElem?_eq_getElem hi]
    · have hge : data.length ≤ i := by omega
      rw [List.getElem?_eq_none hge,
        List.getElem?_eq_none (by rw [readBytes_length]; exact hge)]
  · intro j hj
    have hlt : 16 + j < data.length := by omega
    rw [List.getElem?_eq_getElem hlt, ← hd (16 + j) hlt]
    unfold daddr
    rw [rewriteHeader_other _ 16 (by decide) (by decide) (by decide),
      rewriteHeader_other _ 17 (by decide) (by decide) (by decide),
      rewriteHeader_other _ 18 (by decide) (by decide) (by decide),
      rewriteHeader_other _ 19 (by decide) (by decide) (by decide)]
    have : j = 0 ∨ j = 1 ∨ j = 2 ∨ j = 3 := by omega
    rcases this with rfl | rfl | rfl | rfl <;> rfl

/-- C9 (witness): the frame of forwarding `shortIhlPacket` (24 bytes). -/
theorem forward_frame_witness :
    (iteration zeroMem (.packet shortIhlPacket) 24).sendto = some shortIhlSent ∧
    shortIhlSent.bytes.length = shortIhlPacket.length ∧
    (∀ i, i ≠ 8 → i ≠ 10 → i ≠ 11 → shortIhlSent.bytes[i]? = shortIhlPacket[i]?) :=
  ⟨by decide,
   (forward_frame zeroMem shortIhlPacket 24 shortIhlSent (by decide)).1,
   (forward_frame zeroMem shortIhlPacket 24 shortIhlSent (by decide)).2.1⟩

/-- C10 (code evaluated at the failing input). The same 20-byte packet
`truncatedPacket` (IHL field 6) is received right after a 24-byte packet; with
`longPacketA` before it the bytes transmitted carry checksum bytes 98, 194, with
`longPacketB` before it they carry 102, 200: bytes 20..23 left in the buffer by the
earlier packet reach the checksum. -/
theorem stale_bytes_reach_checksum :
    (mainLoop zeroMem [(.packet longPacketA, 24), (.packet truncatedPacket, 20)]).map
        (fun it => it.sendto.map (fun c => c.bytes)) =
      [some [0x46, 0, 0, 0x18, 0, 0, 0, 0, 63, 0x11, 98, 194, 10, 0, 0, 5, 10, 0, 0, 9,
              1, 2, 3, 4],
       some [0x46, 0, 0, 0x18, 0, 0, 0, 0, 63, 0x11, 98, 194, 10, 0, 0, 5, 10, 0, 0, 9]] ∧
    (mainLoop zeroMem [(.packet longPacketB, 24), (.packet truncatedPacket, 20)]).map
        (fun it => it.sendto.map (fun c => c.bytes)) =
      [some [0x46, 0, 0, 0x18, 0, 0, 0, 0, 63, 0x11, 102, 200, 10, 0, 0, 5, 10, 0, 0, 9,
              0, 0, 0, 0],
       some [0x46, 0, 0, 0x18, 0, 0, 0, 0, 63, 0x11, 102, 200, 10, 0, 0, 5, 10, 0, 0, 9]] := by
  decide

/-- C11. With the results of `recvfrom` and `sendto` as inputs: a pass that
received a packet returns to receiving whatever `sendto` returns (error, short
count, full count); a receive failure with `errno = EINTR` returns to receiving
with the buffer untouched, nothing printed and nothing sent; a pass leaves the loop,
with status 1, exactly when its receive failed with another `errno`; and over a
whole script the loop exits exactly when the script holds such a receive, running
every entry otherwise. -/
theorem loop_exits_only_on_fatal_receive :
    (∀ (old : Memory) (data : List Byte) (bytes_sent : Int),
      (iteration old (.packet data) bytes_sent).exit = none) ∧
    (∀ (old : Memory) (bytes_sent : Int),
      (iteration old (.failure EINTR) bytes_sent).buffer = old ∧
      (iteration old (.failure EINTR) bytes_sent).log = [] ∧
      (iteration old (.failure EINTR) bytes_sent).sendto = none ∧
      (iteration old (.failure EINTR) bytes_sent).exit = none) ∧
    (∀ (old : Memory) (r : Recv) (bytes_sent : Int),
      ((iteration old r bytes_sent).exit = some 1 ↔ fatalReceive r) ∧
      ((iteration old r bytes_sent).exit = none ∨ (iteration old r bytes_sent).exit = some 1)) ∧
    (∀ (old : Memory) (script : List (Recv × Int)),
      ((∃ it ∈ mainLoop old script, it.exit = some 1) ↔ (∃ x ∈ script, fatalReceive x.1)) ∧
      ((∀ x ∈ script, ¬ fatalReceive x.1) →
        (mainLoop old script).length = script.length ∧
        ∀ it ∈ mainLoop old script, it.exit = none)) := by
  refine ⟨iteration_packet_exit, fun old s => ?_, fun old r s => ?_, fun old script => ?_⟩
  · simp [iteration]
  · exact ⟨iteration_exit_iff old r s, iteration_exit_cases old r s⟩
  · exact ⟨mainLoop_exit_iff script old, mainLoop_runs_all script old⟩

/-- C11 (witness): `quietScript` (interrupted receive, failed send, short send,
blocked packet) runs all four passes; `fatalScript` stops at its second receive. -/
theorem loop_exits_only_on_fatal_receive_witness :
    ((∀ x ∈ quietScript, ¬ fatalReceive x.1) ∧
      (mainLoop zeroMem quietScript).length = quietScript.length) ∧
    ((∃ x ∈ fatalScript, fatalReceive x.1) ∧
      ∃ it ∈ mainLoop zeroMem fatalScript, it.exit = some 1) :=
  ⟨⟨by decide,
    ((loop_exits_only_on_fatal_receive.2.2.2 zeroMem quietScript).2 (by decide)).1⟩,
   ⟨by decide,
    (loop_exits_only_on_fatal_receive.2.2.2 zeroMem fatalScript).1.2 (by decide)⟩⟩

/-- C12. For every buffer and every even `nbytes` up to 65536,
`calculate_checksum` returns the reference Internet checksum: the 16-bit complement
of the sum of the `nbytes/2` words folded until no carry remains; the folded value
is below 65536, and on every accumulator such a sum can reach the code's two folds
followed by truncation to 16 bits equal the repeated fold. -/
theorem checksum_matches_reference (p : Memory) (nbytes : Nat)
    (heven : nbytes % 2 = 0) (hlen : nbytes ≤ 65536) :
    calculate_checksum p nbytes = referenceChecksum p nbytes ∧
    foldCarries (wordSum p (nbytes / 2)) < 65536 ∧
    (∀ acc, acc ≤ 65535 * 32768 →
      (acc / 65536 + acc % 65536 + (acc / 65536 + acc % 65536) / 65536) % 65536
        = foldCarries acc) := by
  have hraw : rawSum p nbytes = wordSum p (nbytes / 2) := by
    have e : nbytes = 2 * (nbytes / 2) := by omega
    rw [e, rawSum_even]
    congr 1
    omega
  have hle := wordSum_le p (nbytes / 2)
  refine ⟨?_, foldCarries_lt _, fun acc hacc => ?_⟩
  · rw [calculate_checksum_eq, hraw, fold16_eq_foldCarries _ (by omega)]
    rfl
  · exact fold16_eq_foldCarries acc (by omega)

/-- C12 (witness): the 20-byte header of `allowedPacket`. -/
theorem checksum_matches_reference_witness :
    ((20 : Nat) % 2 = 0 ∧ (20 : Nat) ≤ 65536) ∧
    calculate_checksum (memOf allowedPacket) 20 = referenceChecksum (memOf allowedPacket) 20 :=
  ⟨by decide, (checksum_matches_reference (memOf allowedPacket) 20 (by decide) (by decide)).1⟩

/-- C13. For every buffer and every odd `nbytes`, `calculate_checksum` over
`nbytes` bytes equals `calculate_checksum` over the same bytes followed by one zero
byte with length `nbytes + 1`: the dangling byte is the first byte in memory of a
16-bit word whose second byte is zero. -/
theorem odd_length_pads_with_zero (p : Memory) (nbytes : Nat) (hodd : nbytes % 2 = 1) :
    calculate_checksum p nbytes = calculate_checksum (store8 p nbytes 0) (nbytes + 1) ∧
    (∀ q : Memory, (∀ i < nbytes, q i = p i) → q nbytes = 0 →
      calculate_checksum p nbytes = calculate_checksum q (nbytes + 1)) := by
  have key : ∀ q : Memory, (∀ i < nbytes, q i = p i) → q nbytes = 0 →
      calculate_checksum p nbytes = calculate_checksum q (nbytes + 1) := by
    intro q hq h0
    rw [calculate_checksum_eq, calculate_checksum_eq]
    congr 2
    have e1 : (nbytes + 1) / 2 = nbytes / 2 + 1 := by omega
    have e2 : ¬ ((nbytes + 1) % 2 = 1) := by omega
    have e3 : 2 * (nbytes / 2) + 1 = nbytes := by omega
    unfold rawSum
    rw [e1]
    simp only [hodd, e2, if_true, if_false, Nat.add_zero]
    unfold wordSum
    rw [Finset.sum_range_succ]
    have hw : ∑ j in Finset.range (nbytes / 2), load16 q (2 * j)
        = ∑ j in Finset.range (nbytes / 2), load16 p (2 * j) := by
      apply Finset.sum_congr rfl
      intro j hj
      have := Finset.mem_range.1 hj
      exact load16_congr q p _ (hq _ (by omega)) (hq _ (by omega))
    rw [hw]
    unfold load16
    rw [e3, h0, hq (2 * (nbytes / 2)) (by omega)]
    simp
  refine ⟨key _ (fun i hi => ?_) (store8_same p nbytes 0), key⟩
  exact store8_other p nbytes i 0 (by omega)

/-- C13 (witness): five bytes against the same five bytes and a zero. -/
theorem odd_length_pads_with_zero_witness :
    (5 : Nat) % 2 = 1 ∧
    calculate_checksum (memOf oddBytes) 5
      = calculate_checksum (store8 (memOf oddBytes) 5 0) (5 + 1) :=
  ⟨by decide, (odd_length_pads_with_zero (memOf oddBytes) 5 (by decide)).1⟩

/-- C14. Comparing the dotted-decimal strings of two addresses is comparing
their four bytes; the string test of rule 1 holds exactly when the source bytes are
(192,168,2,3) and the destination bytes (192,168,2,1); so a packet of at least 20
bytes is dropped by the block rule (BLOCK printed, nothing sent) exactly for that
pair, and the packets 192.168.2.30 -> 192.168.2.1 and 192.168.2.3 -> 192.168.2.10,
which only share a textual prefix with it, are not blocked but forwarded. -/
theorem block_rule_exact_match :
    (∀ (m m' : Memory) (o o' : Nat),
      inet_ntop m o = inet_ntop m' o' ↔
        (m o = m' o' ∧ m (o + 1) = m' (o' + 1) ∧ m (o + 2) = m' (o' + 2) ∧
          m (o + 3) = m' (o' + 3))) ∧
    (∀ buf : Memory,
      (inet_ntop buf 12 = "192.168.2.3".toList ∧ inet_ntop buf 16 = "192.168.2.1".toList) ↔
        (saddr buf = [192, 168, 2, 3] ∧ daddr buf = [192, 168, 2, 1])) ∧
    (∀ (old : Memory) (data : List Byte) (bytes_sent : Int), 20 ≤ data.length →
      ((LogLine.actionBlock ∈ (iteration old (.packet data) bytes_sent).log ↔
          (saddr (recvfrom old data) = [192, 168, 2, 3] ∧
            daddr (recvfrom old data) = [192, 168, 2, 1])) ∧
       (LogLine.actionBlock ∈ (iteration old (.packet data) bytes_sent).log →
          (iteration old (.packet data) bytes_sent).sendto = none))) ∧
    (LogLine.actionBlock ∉ (iteration zeroMem (.packet prefixSourcePacket) 20).log ∧
      (iteration zeroMem (.packet prefixSourcePacket) 20).sendto.isSome) ∧
    (LogLine.actionBlock ∉ (iteration zeroMem (.packet prefixDestPacket) 20).log ∧
      (iteration zeroMem (.packet prefixDestPacket) 20).sendto.isSome) := by
  refine ⟨inet_ntop_eq_iff, blocked_str_iff, fun old data s h20 => ?_, by decide, by decide⟩
  refine ⟨block_line_iff old data s h20, fun hblk => ?_⟩
  rw [iteration_blocked old data s h20 ((block_line_iff old data s h20).1 hblk)]

/-- C14 (witness): `blockedPacket` gets the BLOCK line. -/
theorem block_rule_exact_match_witness :
    (20 ≤ blockedPacket.length ∧
      saddr (recvfrom zeroMem blockedPacket) = [192, 168, 2, 3] ∧
      daddr (recvfrom zeroMem blockedPacket) = [192, 168, 2, 1]) ∧
    LogLine.actionBlock ∈ (iteration zeroMem (.packet blockedPacket) 20).log :=
  ⟨by decide,
   ((block_rule_exact_match.2.2.1 zeroMem blockedPacket 20 (by decide)).1).2 (by decide)⟩

/-- C15. For every header of even length up to 60 bytes, storing in host
(little-endian) order the checksum `calculate_checksum` computes over host-order
words writes the same two bytes at offsets 10-11 as storing in network order the
one's-complement checksum computed over network-order words; so the bytes 10-11 of
every packet the loop transmits are that network-order checksum of its rewritten
header. -/
theorem checksum_byte_order_independent (p : Memory) (nbytes : Nat)
    (heven : nbytes % 2 = 0) (hlen : nbytes ≤ 60) :
    store16 p 10 (calculate_checksum p nbytes) = store16be p 10 (checksumBE p nbytes) ∧
    (∀ (old : Memory) (data : List Byte) (bytes_sent : Int) (call : Sendto),
      (iteration old (.packet data) bytes_sent).sendto = some call →
      call.bytes[10]? = some (toByte (checksumBE (zeroedHeader (recvfrom old data))
          (ihl (recvfrom old data) * 4) / 256)) ∧
      call.bytes[11]? = some (toByte (checksumBE (zeroedHeader (recvfrom old data))
          (ihl (recvfrom old data) * 4)))) := by
  constructor
  · obtain ⟨h0, h1⟩ := checksum_swap p nbytes heven (by omega)
    exact store16_eq_store16be p 10 _ _ h0 h1
  · intro old data s call hsend
    have hs : (iteration old (.packet data) s).sendto.isSome := by simp [hsend]
    obtain ⟨h20, hb, ht⟩ := (sendto_isSome_iff old data s).1 hs
    rw [iteration_forward old data s h20 hb ht] at hsend
    simp only [Option.some.injEq] at hsend
    subst hsend
    simp only []
    obtain ⟨h0, h1⟩ := checksum_swap (zeroedHeader (recvfrom old data))
      (ihl (recvfrom old data) * 4) (by omega) (by unfold ihl; omega)
    rw [readBytes_getElem? _ _ 10 (by omega), readBytes_getElem? _ _ 11 (by omega),
      rewriteHeader_eq, ← h0, ← h1]
    simp [store16, store8]

/-- C15 (witness): the 20-byte header of `allowedPacket`. -/
theorem checksum_byte_order_independent_witness :
    ((20 : Nat) % 2 = 0 ∧ (20 : Nat) ≤ 60) ∧
    store16 (memOf allowedPacket) 10 (calculate_checksum (memOf allowedPacket) 20)
      = store16be (memOf allowedPacket) 10 (checksumBE (memOf allowedPacket) 20) :=
  ⟨by decide,
   (checksum_byte_order_independent (memOf allowedPacket) 20 (by decide) (by decide)).1⟩

/-- C16. The incoming header checksum is never read: two packets of equal
length that differ at most in bytes 10-11, received into the same buffer, have the
same outcome (the same lines, both dropped or both transmitted with equal bytes and
destination), and the same holds across different earlier buffer contents when the
packets hold their whole header; whether a packet is transmitted is decided by its
length, addresses and TTL alone, and the checksum it leaves with is the one computed
over the header with the field zeroed; computing it a second time changes nothing. -/
theorem incoming_checksum_ignored :
    (∀ (old : Memory) (data1 data2 : List Byte) (bytes_sent : Int),
      data1.length = data2.length →
      (∀ i, i ≠ 10 → i ≠ 11 → data1[i]? = data2[i]?) →
      (iteration old (.packet data1) bytes_sent).sendto
          = (iteration old (.packet data2) bytes_sent).sendto ∧
      (iteration old (.packet data1) bytes_sent).log
          = (iteration old (.packet data2) bytes_sent).log ∧
      (iteration old (.packet data1) bytes_sent).exit
          = (iteration old (.packet data2) bytes_sent).exit) ∧
    (∀ (old1 old2 : Memory) (data1 data2 : List Byte) (bytes_sent : Int),
      data1.length = data2.length →
      (∀ i, i ≠ 10 → i ≠ 11 → data1[i]? = data2[i]?) →
      ihl (memOf data2) * 4 ≤ data2.length →
      (iteration old1 (.packet data1) bytes_sent).sendto
          = (iteration old2 (.packet data2) bytes_sent).sendto) ∧
    (∀ (old : Memory) (data : List Byte) (bytes_sent : Int),
      ((iteration old (.packet data) bytes_sent).sendto.isSome ↔
        (20 ≤ data.length ∧
          ¬ (saddr (recvfrom old data) = [192, 168, 2, 3] ∧
              daddr (recvfrom old data) = [192, 168, 2, 1]) ∧
          2 ≤ ttl (recvfrom old data))) ∧
      ((iteration old (.packet data) bytes_sent).sendto.isSome →
        check (iteration old (.packet data) bytes_sent).buffer
          = calculate_checksum (store16 (iteration old (.packet data) bytes_sent).buffer 10 0)
              (ihl (recvfrom old data) * 4) ∧
        store16 (store16 (iteration old (.packet data) bytes_sent).buffer 10 0) 10
            (calculate_checksum (store16 (iteration old (.packet data) bytes_sent).buffer 10 0)
              (ihl (store16 (iteration old (.packet data) bytes_sent).buffer 10 0) * 4))
          = (iteration old (.packet data) bytes_sent).buffer)) := by
  refine ⟨iteration_ignores_check, ?_, ?_⟩
  · intro old1 old2 data1 data2 s hlen hd hwhole
    rw [(iteration_ignores_check old1 data1 data2 s hlen hd).1]
    exact (outcome_independent_of_leftover old1 old2 data2 s hwhole).1
  · intro old data s
    refine ⟨sendto_isSome_iff old data s, fun hs => ?_⟩
    obtain ⟨h20, hb, ht⟩ := (sendto_isSome_iff old data s).1 hs
    rw [iteration_forward old data s h20 hb ht]
    simp only []
    refine ⟨?_, rewriteHeader_recompute _⟩
    rw [check_rewriteHeader, rewriteHeader_eq, store16_store16, zeroedHeader_store]

/-- C16 (witness): `corruptedPacket` does not validate, differs from
`allowedPacket` in bytes 10-11 only, and is transmitted with the same bytes. -/
theorem incoming_checksum_ignored_witness :
    (corruptedPacket.length = allowedPacket.length ∧
      (∀ i, i ≠ 10 → i ≠ 11 → corruptedPacket[i]? = allowedPacket[i]?) ∧
      calculate_checksum (memOf corruptedPacket) 20 ≠ 0 ∧
      (iteration zeroMem (.packet allowedPacket) 20).sendto.isSome) ∧
    (iteration zeroMem (.packet corruptedPacket) 20).sendto
      = (iteration zeroMem (.packet allowedPacket) 20).sendto :=
  have hd : ∀ i, i ≠ 10 → i ≠ 11 → corruptedPacket[i]? = allowedPacket[i]? := by
    intro i h10 h11
    by_cases hi : i < 20
    · interval_cases i <;> first | rfl | contradiction
    · rw [List.getElem?_eq_none (by simp [corruptedPacket]; omega),
        List.getElem?_eq_none (by simp [allowedPacket]; omega)]
  ⟨⟨by decide, hd, by decide, by decide⟩,
   (incoming_checksum_ignored.1 zeroMem corruptedPacket allowedPacket 20 (by decide) hd).1⟩

/-- C17. For every forwarded packet (so TTL at least 2) with IHL in 5..15 whose
incoming header validates (`calculate_checksum` over its `ihl*4` bytes returns 0),
the checksum the loop stores after decrementing the TTL equals `~(~HC + ~m + m')`:
`HC` the incoming checksum word, `m` and `m'` the TTL/protocol word (bytes 8-9)
before and after the decrement, `+` the 16-bit one's-complement addition. -/
theorem recomputation_matches_incremental (old : Memory) (data : List Byte) (s : Int)
    (hsend : (iteration old (.packet data) s).sendto.isSome)
    (h5 : 5 ≤ ihl (recvfrom old data)) (h15 : ihl (recvfrom old data) ≤ 15)
    (hv : calculate_checksum (recvfrom old data) (ihl (recvfrom old data) * 4) = 0) :
    check (iteration old (.packet data) s).buffer
      = incrementalUpdate (check (recvfrom old data)) (load16 (recvfrom old data) 8)
          (load16 (iteration old (.packet data) s).buffer 8) := by
  obtain ⟨h20, hb, ht⟩ := (sendto_isSome_iff old data s).1 hsend
  rw [iteration_forward old data s h20 hb ht]
  simp only []
  generalize recvfrom old data = b at *
  have e : ihl b * 4 = 2 * (2 * ihl b) := by omega
  have hk : 5 < 2 * ihl b := by omega
  obtain ⟨hdec, hnew⟩ := load16_ttl_decremented b (by omega)
  rw [check_rewriteHeader, hnew]
  rw [e] at hv ⊢
  rw [calculate_checksum_eq, rawSum_header _ _ hk, restSum_split _ _ hk] at hv
  have hz10 : load16 (zeroedHeader b) 10 = 0 := by
    unfold zeroedHeader
    exact load16_store16 _ _ _ (by decide)
  rw [calculate_checksum_eq, rawSum_header _ _ hk, restSum_split _ _ hk, hz10,
    restSum2_congr (zeroedHeader b) b _
      (fun i h8 _ h10 h11 => zeroedHeader_other b i h8 h10 h11)]
  have hR := restSum2_le b (2 * ihl b)
  have hC := load16_lt b 10
  have hM := load16_lt b 8
  have httl : 2 ≤ load16 b 8 := by
    unfold load16
    unfold ttl at ht
    omega
  unfold check
  generalize restSum2 b (2 * ihl b) = r2 at *
  generalize load16 b 10 = hc at *
  generalize load16 b 8 = m at *
  generalize load16 (zeroedHeader b) 8 = m' at *
  have sV := fold16_spec (hc + (m + r2)) (by omega)
  have sT := fold16_spec (0 + (m' + r2)) (by omega)
  have hvalid : (hc + (m + r2)) % 65535 = 0 := by
    generalize fold16 (hc + (m + r2)) = v at *
    omega
  exact incremental_arith hc m m' r2 _ (by omega) (by omega) hdec (by omega) hvalid
    sT.1 sT.2.1 sT.2.2

/-- C17 (witness): forwarding `allowedPacket`, whose incoming checksum is valid. -/
theorem recomputation_matches_incremental_witness :
    ((iteration zeroMem (.packet allowedPacket) 20).sendto.isSome ∧
      5 ≤ ihl (recvfrom zeroMem allowedPacket) ∧ ihl (recvfrom zeroMem allowedPacket) ≤ 15 ∧
      calculate_checksum (recvfrom zeroMem allowedPacket)
        (ihl (recvfrom zeroMem allowedPacket) * 4) = 0) ∧
    check (iteration zeroMem (.packet allowedPacket) 20).buffer
      = incrementalUpdate (check (recvfrom zeroMem allowedPacket))
          (load16 (recvfrom zeroMem allowedPacket) 8)
          (load16 (iteration zeroMem (.packet allowedPacket) 20).buffer 8) :=
  ⟨by decide,
   recomputation_matches_incremental zeroMem allowedPacket 20 (by decide) (by decide)
     (by decide) (by decide)⟩

end PacketFilter
